import Mathlib

/-!
# The export endpoint of formio (`src/export/export.js`)

A shallow embedding of the handler mounted on `GET /form/:formId/export`:
the construction of the query (the `x-query` header, the request-derived
filter, the `form`, `deleted` and `owner` constraints), the two alter hooks
around it, the start of the cursor, and the per-row transformation
(`addUrl` followed by `removeProtectedFields`) that feeds the exporter.

Values are JSON-like data.  Objects are association lists in insertion
order; a property is read at its first entry and written in place, or at the
end when it is new.  A mutation through a reference is modelled by returning
the new state of the object.  Numbers are the integral ones; fractions, NaN
and the infinities are outside the model.  Functions that the handler only
calls (the hooks, `ObjectId`, `url.resolve`, `removeProtectedFields`, the
store) are fields of an environment and are taken to be pure and total.

Link injection is given twice: `addUrl` is the state that a call of `addUrl`
leaves when it returns, and `addUrlRun` is the call itself on a call stack of
a given size, which can also end in the `TypeError` of a string conversion or
in the stack overflow of the runtime.  On plain data that fits the stack the
two agree (`addUrlRun_of_plain`).
-/

set_option autoImplicit false

namespace Formio

/-- A JavaScript value as `JSON.parse` or the store can produce it.  An array
carries its items and, apart from them, the named own properties that an
assignment such as `query.form = ...` adds to it. -/
inductive JVal where
  | undefined
  | null
  | bool (b : Bool)
  | num (n : Int)
  | str (s : String)
  | arr (items : List JVal) (props : List (String × JVal))
  | obj (fields : List (String × JVal))

/-- The own named properties of an object, in insertion order. -/
abbrev Fields := List (String × JVal)

namespace JVal

/-- The value of the first entry with key `k`. -/
def assocGet (k : String) : Fields → Option JVal
  | [] => none
  | (k1, v) :: fs => if k1 = k then some v else assocGet k fs

/-- Assignment `o[k] = x` on the own properties: in place when `k` exists,
appended otherwise. -/
def assocSet (k : String) (x : JVal) : Fields → Fields
  | [] => [(k, x)]
  | (k1, v) :: fs => if k1 = k then (k, x) :: fs else (k1, v) :: assocSet k x fs

/-- The own named properties of a value; a primitive has none of the names
the handler uses. -/
def props : JVal → Fields
  | obj fs => fs
  | arr _ ps => ps
  | _ => []

/-- The same object with its own named properties replaced. -/
def withProps : JVal → Fields → JVal
  | obj _, fs => obj fs
  | arr items _, fs => arr items fs
  | v, _ => v

/-- Own-property test, `Object.prototype.hasOwnProperty.call(v, k)`, for a
name `k` that is neither an index nor `length`. -/
def hasOwn (v : JVal) (k : String) : Bool :=
  (assocGet k (props v)).isSome

/-- Property read `v.k` for a name `k` that is neither an index nor `length`
and that no prototype defines: `undefined` when `v` has no such own
property. -/
def getProp (v : JVal) (k : String) : JVal :=
  (assocGet k (props v)).getD undefined

/-- JavaScript truthiness. -/
def truthy : JVal → Bool
  | undefined => false
  | null => false
  | bool b => b
  | num n => decide (n ≠ 0)
  | str s => decide (s ≠ "")
  | arr _ _ => true
  | obj _ => true

/-- Strict comparison `v === true`. -/
def isTrue : JVal → Bool
  | bool true => true
  | _ => false

/-- Test for the two values that `Array.prototype.join` prints as the empty string. -/
def isNullish : JVal → Bool
  | undefined => true
  | null => true
  | _ => false

mutual
/-- String conversion with the default conversion methods: an array is
joined with commas, any other object prints as `[object Object]`, a number
prints its decimal digits.  This is what the template literal of line 90
gives on a plain value (`templateString_of_plain`); the conversion itself,
with the cases in which it throws, is `templateString`. -/
def toStr : JVal → String
  | undefined => "undefined"
  | null => "null"
  | bool true => "true"
  | bool false => "false"
  | num n => toString n
  | str s => s
  | arr items _ => joinItems items
  | obj _ => "[object Object]"
/-- The items of an array joined with commas (`Array.prototype.join`). -/
def joinItems : List JVal → String
  | [] => ""
  | [v] => if isNullish v then "" else toStr v
  | v :: w :: vs => (if isNullish v then "" else toStr v) ++ "," ++ joinItems (w :: vs)
end

end JVal

open JVal

/-- The part of `router.formio.config` that the handler reads. -/
structure Config where
  /-- Field `config.apiHost`, which may be unset. -/
  apiHost : Option String
  /-- Field `config.host`. -/
  host : String

/-- Expression `config.apiHost || config.host`. -/
def Config.apiHostOrHost (c : Config) : String :=
  match c.apiHost with
  | some h => if h ≠ "" then h else c.host
  | none => c.host

/-- What `addUrl` closes over: the `fieldUrl` alter hook, `url.resolve`, the
configuration and the loaded form. -/
structure UrlEnv where
  /-- Call `hook.alter('fieldUrl', path, form, field)`. -/
  alterFieldUrl : String → JVal → JVal → String
  /-- Function `url.resolve(from, to)`. -/
  resolve : String → String → String
  /-- Object `router.formio.config`. -/
  config : Config
  /-- The form that `loadCurrentForm` produced. -/
  form : JVal

/-- The template literal of line 90: the default path of a linked record. -/
def defaultPath (field : JVal) : String :=
  "/form/" ++ toStr (getProp field "form") ++ "/submission/" ++ toStr (getProp field "_id")

/-- The value assigned to `field.url` (lines 90 to 92). -/
def fieldUrlOf (e : UrlEnv) (field : JVal) : JVal :=
  str (e.resolve e.config.apiHostOrHost (e.alterFieldUrl (defaultPath field) e.form field))

/-- The guard `field && field._id` of line 88. -/
def idBearing (field : JVal) : Bool :=
  truthy field && truthy (getProp field "_id")

/-- The largest value lodash accepts as a length. -/
def MAX_SAFE_INTEGER : Int := 9007199254740991

/-- Test `isArrayLike` of lodash on a plain object: its `length` is a number
that is a valid length.  The result is that length. -/
def arrayLikeLength (fields : Fields) : Option Nat :=
  match assocGet "length" fields with
  | some (num n) => if 0 ≤ n ∧ n ≤ MAX_SAFE_INTEGER then some n.toNat else none
  | _ => none

/-- The number written by a list of decimal digits, after the digits `acc`. -/
def decimalValue (acc : Nat) : List Char → Option Nat
  | [] => some acc
  | c :: cs => if c.isDigit then decimalValue (acc * 10 + (c.toNat - 48)) cs else none

/-- The index that a property key denotes: the key is its decimal form, with
no leading zero. -/
def parseIndex : List Char → Option Nat
  | [] => none
  | [c] => decimalValue 0 [c]
  | c :: cs => if c = '0' then none else decimalValue 0 (c :: cs)

/-- The key `k` is the property key of an index below `n`. -/
def isIndexBelow (n : Nat) (k : String) : Bool :=
  match parseIndex k.toList with
  | some i => decide (i < n)
  | none => false

mutual
/-- The state of `data` after the call `addUrl(data)` (lines 86 to 97).
`_.each` runs the iteratee on the items of an array, on the values at the
indices below `length` of an array-like object, and on every own value of any
other object; on a primitive it has nothing to change. -/
def addUrl (e : UrlEnv) : JVal → JVal
  | arr items ps => arr (addUrlItems e items) ps
  | obj fields =>
    match arrayLikeLength fields with
    | some n => obj (addUrlIndexed e n fields)
    | none => obj (addUrlOwn e fields)
  | v => v
/-- The state of `field` after the iteratee of `_.each` has run on it: with a
truthy `_id` it gets its `url` and `addUrl` runs on its `data`.  The two
writes touch different keys, see `addUrlData_assocSet`. -/
def addUrlField (e : UrlEnv) : JVal → JVal
  | arr items ps =>
    if truthy (getProp (arr items ps) "_id") then
      arr items (assocSet "url" (fieldUrlOf e (arr items ps)) (addUrlData e ps))
    else arr items ps
  | obj fields =>
    if truthy (getProp (obj fields) "_id") then
      obj (assocSet "url" (fieldUrlOf e (obj fields)) (addUrlData e fields))
    else obj fields
  | v => v
/-- The iteratee on each item of an array. -/
def addUrlItems (e : UrlEnv) : List JVal → List JVal
  | [] => []
  | v :: vs => addUrlField e v :: addUrlItems e vs
/-- The iteratee on each own value of an object. -/
def addUrlOwn (e : UrlEnv) : Fields → Fields
  | [] => []
  | (k, v) :: fs => (k, addUrlField e v) :: addUrlOwn e fs
/-- The iteratee on the values at the indices below `n` of an array-like object. -/
def addUrlIndexed (e : UrlEnv) (n : Nat) : Fields → Fields
  | [] => []
  | (k, v) :: fs =>
    (k, if isIndexBelow n k then addUrlField e v else v) :: addUrlIndexed e n fs
/-- The call `addUrl(o.data)` seen from the object `o` that holds `data`. -/
def addUrlData (e : UrlEnv) : Fields → Fields
  | [] => []
  | (k, v) :: fs => if k = "data" then (k, addUrl e v) :: fs else (k, v) :: addUrlData e fs
end

/-- The values on which `_.each(data, ...)` runs its iteratee, apart from
the `undefined` it passes for a missing index and the characters of a
string, which are primitives. -/
def visited : JVal → List JVal
  | arr items _ => items
  | obj fields =>
    match arrayLikeLength fields with
    | some n => (fields.filter (fun kv => isIndexBelow n kv.1)).map Prod.snd
    | none => fields.map Prod.snd
  | _ => []

/-- The value reached from `data` by the positions `path`: the first position
picks a value that `_.each(data, ...)` visits, and each further position a
value visited in the `data` of the previous one, which must have a truthy
`_id` for `addUrl` to go on. -/
def reach : JVal → List Nat → Option JVal
  | _, [] => none
  | d, [i] => (visited d)[i]?
  | d, i :: j :: path =>
    match (visited d)[i]? with
    | some w => if idBearing w then reach (getProp w "data") (j :: path) else none
    | none => none

/-- The header `x-query` as the handler sees it through
`req.headers.hasOwnProperty('x-query')` and `JSON.parse`: not sent, sent with
a text on which `JSON.parse` throws `e`, or sent with a text that parses to
`value`. -/
inductive XQuery where
  | absent
  | malformed (e : String)
  | parsed (value : JVal)

/-- An exception that the handler does not catch where it is raised. -/
inductive Thrown where
  | typeError
  deriving DecidableEq

/-- Assignment `q[k] = x` on an object. -/
def assign (q : JVal) (k : String) (x : JVal) : JVal :=
  withProps q (assocSet k x (props q))

/-- Assignment `q.k = x` in strict mode (the file starts with `'use strict'`):
on `null`, `undefined` or a primitive it throws a `TypeError`. -/
def setProp (q : JVal) (k : String) (x : JVal) : Except Thrown JVal :=
  match q with
  | obj fs => .ok (assign (obj fs) k x)
  | arr items ps => .ok (assign (arr items ps) k x)
  | _ => .error .typeError

/-- Method call `q.hasOwnProperty(k)` on an object: the method is looked up
on `q` first, and an own property of that name, which in JSON-like data is
never a function, makes the call throw a `TypeError`. -/
def callHasOwnProperty (q : JVal) (k : String) : Except Thrown Bool :=
  if hasOwn q "hasOwnProperty" then .error .typeError else .ok (hasOwn q k)

/-- The constraint `{$eq: null}` of line 71. -/
def eqNull : JVal := obj [("$eq", null)]

/-- The result of lines 49 to 72: what was logged and the query, or the
exception that ended the handler. -/
structure Built where
  /-- The errors passed to `debug` and to `router.formio.util.log`. -/
  logged : List String
  /-- The query after line 72. -/
  query : Except Thrown JVal

/-- Lines 50 to 64: the query before the constraints are added, and what was
logged.  `derived` is `resource.getFindQuery(req, {queryFilter: true})`, which
is only used when the header is absent. -/
def initialQuery (xq : XQuery) (derived : Fields) : JVal × List String :=
  match xq with
  | .absent => (obj derived, [])
  | .malformed e => (obj [], [e, e])
  | .parsed v => (v, [])

/-- Lines 66 to 72: `query.form = form._id`, then the default for `deleted`. -/
def enforce (query : JVal) (formId : JVal) : Except Thrown JVal :=
  match setProp query "form" formId with
  | .error t => .error t
  | .ok q =>
    if truthy q then
      match callHasOwnProperty q "deleted" with
      | .error t => .error t
      | .ok true => .ok q
      | .ok false => setProp q "deleted" eqNull
    else .ok q

/-- Lines 49 to 72 of the handler. -/
def buildQuery (xq : XQuery) (derived : Fields) (formId : JVal) : Built :=
  { logged := (initialQuery xq derived).2
    query := enforce (initialQuery xq derived).1 formId }

/-- A row of the cursor: the own properties of a stored document. -/
abbrev Row := Fields

/-- The request, as far as the handler reads it. -/
structure Request where
  /-- The own property `token` of the request, if it has one. -/
  token : Option JVal
  /-- The value of `req.query.format`, if there is one. -/
  format : Option String
  /-- The header `x-query`. -/
  xQuery : XQuery
  /-- The value of `req.skipOwnerFilter` when line 100 reads it. -/
  skipOwnerFilter : JVal
  /-- The value of `req.isAdmin` when line 100 reads it. -/
  isAdmin : JVal
  /-- The model `req.submissionModel`, if set: the rows its cursor yields for a query. -/
  submissionModel : Option (JVal → List Row)

/-- Everything the handler calls and does not define. -/
structure Env where
  /-- The own property names of the exporters module. -/
  exporters : List String
  /-- Method `String.prototype.toLowerCase`. -/
  toLowerCase : String → String
  /-- The pair `(err, form)` that `router.formio.cache.loadCurrentForm` hands to its callback. -/
  loadCurrentForm : Request → JVal × JVal
  /-- Call `resource.getFindQuery(req, {queryFilter: true})`. -/
  getFindQuery : Request → Fields
  /-- Call `hook.alter('export', req, query, form, exporter, cb)`: the
  message of the error handed to `cb`, or the own properties of `query` as the
  hook leaves them. -/
  alterExport : Request → JVal → JVal → Except String Fields
  /-- Call `exporter.init()` for the exporter of a format: resolved, or
  rejected with an error. -/
  init : String → JVal → Request → Except JVal Unit
  /-- Call `hook.alter('submissionQuery', query, req)`. -/
  alterSubmissionQuery : JVal → Request → JVal
  /-- Function `router.formio.util.ObjectId`. -/
  ObjectId : JVal → JVal
  /-- Call `router.formio.util.removeProtectedFields(form, action, row)`: the
  state of the row afterwards. -/
  removeProtectedFields : JVal → String → Row → Row
  /-- Call `hook.alter('fieldUrl', path, form, field)`. -/
  alterFieldUrl : String → JVal → JVal → String
  /-- Function `url.resolve(from, to)`. -/
  resolve : String → String → String
  /-- Object `router.formio.config`. -/
  config : Config
  /-- The model `router.formio.resources.submission.model`: the rows its
  cursor yields for a query. -/
  submissionModel : JVal → List Row

/-- The closure of `addUrl` once the form is loaded. -/
def Env.urlEnv (env : Env) (form : JVal) : UrlEnv :=
  { alterFieldUrl := env.alterFieldUrl
    resolve := env.resolve
    config := env.config
    form := form }

/-- The answer of the handler. -/
inductive Response where
  | sendStatus (code : Nat)
  | statusSend (code : Nat) (body : JVal)
  | uncaught (t : Thrown)
  | exporterStream

/-- The stream that `through` creates: the rows queued so far, and whether
the end marker `null` has been queued. -/
structure Stream where
  /-- The rows queued. -/
  queue : List JVal
  /-- The end marker has been queued. -/
  ended : Bool

/-- Call `stream.queue(data)`: after the end marker nothing is accepted, and
`null` is the end marker. -/
def Stream.enqueue (s : Stream) (data : JVal) : Stream :=
  if s.ended then s
  else
    match data with
    | null => { queue := s.queue, ended := true }
    | d => { queue := s.queue ++ [d], ended := false }

/-- The function given to `through` (lines 108 to 113), on one row. -/
def throughWrite (env : Env) (form : JVal) (s : Stream) (row : Row) : Stream :=
  s.enqueue (obj (env.removeProtectedFields form "export" (addUrlData (env.urlEnv form) row)))

/-- The stream after the cursor has produced `rows` and ended (lines 108 to 117). -/
def pipe (env : Env) (form : JVal) (rows : List Row) : Stream :=
  (rows.foldl (throughWrite env form) { queue := [], ended := false }).enqueue null

/-- What one request makes the handler do. -/
structure Outcome where
  /-- The errors logged. -/
  logged : List String
  /-- The query of the call `submissionModel.find`, if it was called. -/
  found : Option JVal
  /-- The rows queued to the stream given to the exporter. -/
  queued : List JVal
  /-- The answer. -/
  response : Response

/-- An answer given before the exporter is initialised. -/
def Outcome.early (logged : List String) (r : Response) : Outcome :=
  { logged := logged, found := none, queued := [], response := r }

/-- The test of line 26: `_.has(req, 'token') && _.has(req, 'token.user._id')`. -/
def tokenOk (req : Request) : Bool :=
  match req.token with
  | none => false
  | some t => hasOwn t "user" && hasOwn (getProp t "user") "_id"

/-- Expression `req.token.user._id`. -/
def userId (req : Request) : JVal :=
  match req.token with
  | none => undefined
  | some t => getProp (getProp t "user") "_id"

/-- Lines 31 to 33: the export format. -/
def formatOf (env : Env) (req : Request) : String :=
  match req.format with
  | some f => if f ≠ "" then env.toLowerCase f else "json"
  | none => "json"

/-- The test of line 100: neither `skipOwnerFilter` nor `isAdmin` is `true`. -/
def nonPrivileged (req : Request) : Bool :=
  !isTrue req.skipOwnerFilter && !isTrue req.isAdmin

/-- Lines 99 to 103: the owner filter. -/
def ownerFilter (env : Env) (req : Request) (query : JVal) : JVal :=
  if nonPrivileged req then assign query "owner" (env.ObjectId (userId req)) else query

/-- Line 106: the model whose `find` is called. -/
def submissionModelOf (env : Env) (req : Request) : JVal → List Row :=
  match req.submissionModel with
  | some m => m
  | none => env.submissionModel

/-- Lines 99 to 120, once `exporter.init()` has resolved. -/
def streamStep (env : Env) (req : Request) (form : JVal) (logged : List String)
    (query : JVal) : Outcome :=
  { logged := logged
    found := some (env.alterSubmissionQuery (ownerFilter env req query) req)
    queued := (pipe env form
      (submissionModelOf env req (env.alterSubmissionQuery (ownerFilter env req query) req))).queue
    response := .exporterStream }

/-- Lines 74 to 126, once the query is built: the `export` hook, then
`exporter.init()`, then the stream. -/
def exportStep (env : Env) (req : Request) (form : JVal) (logged : List String)
    (query : JVal) : Outcome :=
  match env.alterExport req query form with
  | .error message => Outcome.early logged (.statusSend 400 (str message))
  | .ok fs =>
    match env.init (formatOf env req) form req with
    | .error error => Outcome.early logged (.statusSend 400 error)
    | .ok _ => streamStep env req form logged (withProps query fs)

/-- Lines 41 to 127: the callback of `loadCurrentForm`. -/
def formStep (env : Env) (req : Request) (err form : JVal) : Outcome :=
  if truthy err then Outcome.early [] (.sendStatus 401)
  else if !truthy form then Outcome.early [] (.sendStatus 404)
  else
    match (buildQuery req.xQuery (env.getFindQuery req) (getProp form "_id")).query with
    | .error t =>
      Outcome.early (buildQuery req.xQuery (env.getFindQuery req) (getProp form "_id")).logged
        (.uncaught t)
    | .ok query =>
      exportStep env req form
        (buildQuery req.xQuery (env.getFindQuery req) (getProp form "_id")).logged query

/-- The handler of `GET /form/:formId/export` (lines 25 to 128). -/
def handler (env : Env) (req : Request) : Outcome :=
  if !tokenOk req then Outcome.early [] (.sendStatus 400)
  else if formatOf env req ∉ env.exporters then
    Outcome.early [] (.statusSend 400 (str "Unknown format"))
  else formStep env req (env.loadCurrentForm req).1 (env.loadCurrentForm req).2

/-- A value on which an assignment succeeds: an object or an array. -/
def isObject : JVal → Bool
  | obj _ => true
  | arr _ _ => true
  | _ => false

/-- The query handed to the `export` hook, when the handler gets that far. -/
def hookQuery (env : Env) (req : Request) : Option JVal :=
  if tokenOk req ∧ formatOf env req ∈ env.exporters ∧
      truthy (env.loadCurrentForm req).1 = false ∧ truthy (env.loadCurrentForm req).2 = true then
    match (buildQuery req.xQuery (env.getFindQuery req)
        (getProp (env.loadCurrentForm req).2 "_id")).query with
    | .ok q => some q
    | .error _ => none
  else none

/-- The answer carries a status of the 4xx or 5xx range. -/
def Response.isErrorStatus : Response → Bool
  | .sendStatus code => decide (400 ≤ code ∧ code < 600)
  | .statusSend code _ => decide (400 ≤ code ∧ code < 600)
  | _ => false

/-- ASCII lower-casing, a stand-in for `toLowerCase` in the examples. -/
def asciiLower (s : String) : String :=
  String.mk (s.toList.map Char.toLower)

/-- A form with `_id` "F1", for the examples. -/
def demoForm : JVal := obj [("_id", str "F1"), ("title", str "Contact")]

/-- An environment for the examples: two exporters, a form that loads, hooks
that change nothing, an id constructor that keeps its argument, and a store
with one submission holding a linked record. -/
def demoEnv : Env :=
  { exporters := ["json", "csv"]
    toLowerCase := asciiLower
    loadCurrentForm := fun _ => (null, demoForm)
    getFindQuery := fun _ => [("data.name", str "x")]
    alterExport := fun _ q _ => .ok (props q)
    init := fun _ _ _ => .ok ()
    alterSubmissionQuery := fun q _ => q
    ObjectId := fun v => v
    removeProtectedFields := fun _ _ row => row.filter (fun kv => kv.1 ≠ "secret")
    alterFieldUrl := fun p _ _ => p
    resolve := fun a b => a ++ b
    config := { apiHost := none, host := "http://api" }
    submissionModel := fun _ =>
      [[("_id", str "s1"), ("secret", str "p"),
        ("data", obj [("ref", obj [("_id", str "42"), ("form", str "5")])])]] }

/-- A request of user "u1" without privileges, header or format, for the examples. -/
def demoReq : Request :=
  { token := some (obj [("user", obj [("_id", str "u1")])])
    format := none
    xQuery := .absent
    skipOwnerFilter := undefined
    isAdmin := undefined
    submissionModel := none }

/-- The example environment with a `submissionQuery` hook that deletes the
`owner` constraint from the query it is given. -/
def dropOwnerEnv : Env :=
  { demoEnv with
    alterSubmissionQuery := fun q _ => withProps q ((props q).filter (fun kv => kv.1 ≠ "owner")) }

/-- The example environment with an `export` hook that points the query at
another form. -/
def otherFormEnv : Env :=
  { demoEnv with alterExport := fun _ q _ => .ok (assocSet "form" (str "F2") (props q)) }

/-- The transformation of one row between the cursor and the exporter:
`addUrl(row.data)`, then `removeProtectedFields(form, 'export', row)`. -/
def exportedRow (env : Env) (form : JVal) (row : Row) : JVal :=
  obj (env.removeProtectedFields form "export" (addUrlData (env.urlEnv form) row))

mutual
/-- The value without any `url` property, at any depth. -/
def eraseUrl : JVal → JVal
  | arr items ps => arr (eraseItems items) (eraseFields ps)
  | obj fields => obj (eraseFields fields)
  | v => v
/-- The items of an array without any `url` property. -/
def eraseItems : List JVal → List JVal
  | [] => []
  | v :: vs => eraseUrl v :: eraseItems vs
/-- The own properties of an object without `url`, and without any `url` below. -/
def eraseFields : Fields → Fields
  | [] => []
  | (k, v) :: fs => if k = "url" then eraseFields fs else (k, eraseUrl v) :: eraseFields fs
end

/-- A linked record of form "f" that holds `inner` as its `data`. -/
def linkOf (inner : JVal) : JVal :=
  obj [("_id", str "1"), ("form", str "f"), ("data", inner)]

/-- A record data with `n` linked records nested in one another through `data`. -/
def nest : Nat → JVal
  | 0 => obj []
  | n + 1 => obj [("ref", linkOf (nest n))]

/-- Expression `row.data`. -/
def rowData (row : Row) : JVal :=
  getProp (obj row) "data"

/-- The closure of `addUrl` in the example environment. -/
def demoUrlEnv : UrlEnv := demoEnv.urlEnv demoForm

/-- A stored submission whose data holds a linked record that itself holds
the linked record "42" of form "5". -/
def demoRow : Row :=
  [("_id", str "s2"),
    ("data", obj [("name", str "x"),
      ("parent", obj [("_id", str "41"), ("form", str "4"),
        ("data", obj [("child", obj [("_id", str "42"), ("form", str "5")])])])])]

/-- What ends a run of `addUrl` before it returns: the `TypeError` of a
string conversion, or the `RangeError` of the runtime when the nested calls
have used up the call stack. -/
inductive RunError where
  | typeError
  | rangeError
  deriving DecidableEq

mutual
/-- The string that a template literal makes of a value, or the `TypeError`
it throws.  An object is converted by its `toString`: an own property of
that name is never a function in JSON-like data and makes the conversion
throw; without one, a plain object prints as `[object Object]` and an array
is joined with commas, or prints as `[object Array]` when an own property
hides `join`. -/
def templateString : JVal → Except RunError String
  | undefined => .ok "undefined"
  | null => .ok "null"
  | .bool true => .ok "true"
  | .bool false => .ok "false"
  | num n => .ok (toString n)
  | str s => .ok s
  | arr items ps =>
    if (assocGet "toString" ps).isSome then .error .typeError
    else if (assocGet "join" ps).isSome then .ok "[object Array]"
    else joinRun items
  | obj fields =>
    if (assocGet "toString" fields).isSome then .error .typeError else .ok "[object Object]"
/-- The items of an array joined with commas, or the `TypeError` of the first
item whose conversion throws. -/
def joinRun : List JVal → Except RunError String
  | [] => .ok ""
  | [v] => if isNullish v then .ok "" else templateString v
  | v :: w :: vs =>
    match (if isNullish v then .ok "" else templateString v) with
    | .error t => .error t
    | .ok a =>
      match joinRun (w :: vs) with
      | .error t => .error t
      | .ok b => .ok (a ++ "," ++ b)
end

/-- The own properties with the value of `data` replaced, where there is one. -/
def replaceData (x : JVal) : Fields → Fields
  | [] => []
  | (k, v) :: fs => if k = "data" then (k, x) :: fs else (k, v) :: replaceData x fs

/-- One run of the iteratee of `_.each` (lines 88 to 95) on `field`, where
`run` is the nested call `addUrl(field.data)`: the template literal may
throw, and so may the nested call. -/
def fieldRun (e : UrlEnv) (run : JVal → Except RunError JVal) (field : JVal) :
    Except RunError JVal :=
  if idBearing field then
    match templateString (getProp field "form") with
    | .error t => .error t
    | .ok f =>
      match templateString (getProp field "_id") with
      | .error t => .error t
      | .ok i =>
        match run (getProp field "data") with
        | .error t => .error t
        | .ok data =>
          .ok (withProps field (assocSet "url"
            (str (e.resolve e.config.apiHostOrHost
              (e.alterFieldUrl ("/form/" ++ f ++ "/submission/" ++ i) e.form field)))
            (replaceData data (props field))))
  else .ok field

/-- The iteratee `f` run on the items of an array, in order, up to the first
that throws. -/
def itemsRun (f : JVal → Except RunError JVal) : List JVal → Except RunError (List JVal)
  | [] => .ok []
  | v :: vs =>
    match f v with
    | .error t => .error t
    | .ok v1 =>
      match itemsRun f vs with
      | .error t => .error t
      | .ok vs1 => .ok (v1 :: vs1)

/-- The iteratee `f` run on the own values whose key `visit` selects, in the
order of the properties, up to the first that throws. -/
def ownRun (f : JVal → Except RunError JVal) (visit : String → Bool) :
    Fields → Except RunError Fields
  | [] => .ok []
  | (k, v) :: fs =>
    match (if visit k then f v else .ok v) with
    | .error t => .error t
    | .ok v1 =>
      match ownRun f visit fs with
      | .error t => .error t
      | .ok fs1 => .ok ((k, v1) :: fs1)

/-- Call `_.each(data, f)` with an iteratee that may throw. -/
def eachRun (f : JVal → Except RunError JVal) : JVal → Except RunError JVal
  | arr items ps =>
    match itemsRun f items with
    | .error t => .error t
    | .ok items1 => .ok (arr items1 ps)
  | obj fields =>
    match arrayLikeLength fields with
    | some n =>
      match ownRun f (isIndexBelow n) fields with
      | .error t => .error t
      | .ok fields1 => .ok (obj fields1)
    | none =>
      match ownRun f (fun _ => true) fields with
      | .error t => .error t
      | .ok fields1 => .ok (obj fields1)
  | v => .ok v

/-- A run of the call `addUrl(data)` (lines 86 to 97) on a call stack with
room for `stack` nested calls of `addUrl`: the state of `data` when the call
returns, or what ended it.  The source has no depth check; the recursion of
line 94 goes on until the data ends or the stack does. -/
def addUrlRun (e : UrlEnv) : Nat → JVal → Except RunError JVal
  | 0, _ => .error .rangeError
  | stack + 1, data => eachRun (fieldRun e (addUrlRun e stack)) data

mutual
/-- A value all of whose numbers are safe integers and none of whose objects
hides `toString`, or `join` for an array, behind an own property: on such a
value the string conversions of line 90 do not throw and print what `toStr`
prints. -/
def plain : JVal → Bool
  | num n => decide (-MAX_SAFE_INTEGER ≤ n ∧ n ≤ MAX_SAFE_INTEGER)
  | arr items ps =>
    !(assocGet "toString" ps).isSome && !(assocGet "join" ps).isSome &&
      plainItems items && plainFields ps
  | obj fields => !(assocGet "toString" fields).isSome && plainFields fields
  | _ => true
/-- Every item is plain. -/
def plainItems : List JVal → Bool
  | [] => true
  | v :: vs => plain v && plainItems vs
/-- Every own value is plain. -/
def plainFields : Fields → Bool
  | [] => true
  | (_, v) :: fs => plain v && plainFields fs
end

mutual
/-- The nesting depth of a value: 0 for a primitive, one more than the
deepest item or own value for an array or an object. -/
def depth : JVal → Nat
  | arr items ps => max (depthItems items) (depthFields ps) + 1
  | obj fields => depthFields fields + 1
  | _ => 0
/-- The depth of the deepest item. -/
def depthItems : List JVal → Nat
  | [] => 0
  | v :: vs => max (depth v) (depthItems vs)
/-- The depth of the deepest own value. -/
def depthFields : Fields → Nat
  | [] => 0
  | (_, v) :: fs => max (depth v) (depthFields fs)
end

/-! ## Association lists and assignment -/

theorem assocGet_assocSet_same (k : String) (x : JVal) (fs : Fields) :
    assocGet k (assocSet k x fs) = some x := by
  induction fs with
  | nil => simp [assocSet, assocGet]
  | cons kv fs ih =>
    obtain ⟨k1, v⟩ := kv
    by_cases h : k1 = k
    · simp [assocSet, assocGet, h]
    · simp [assocSet, assocGet, h, ih]

theorem assocGet_assocSet_ne (k k1 : String) (x : JVal) (fs : Fields) (h : k1 ≠ k) :
    assocGet k1 (assocSet k x fs) = assocGet k1 fs := by
  induction fs with
  | nil => simp [assocSet, assocGet, Ne.symm h]
  | cons kv fs ih =>
    obtain ⟨k2, v⟩ := kv
    by_cases h2 : k2 = k
    · subst h2
      simp [assocSet, assocGet, Ne.symm h]
    · by_cases h3 : k2 = k1
      · subst h3
        simp [assocSet, assocGet, h2]
      · simp [assocSet, assocGet, h2, h3, ih]

theorem isObject_assign (q : JVal) (k : String) (x : JVal) :
    isObject (assign q k x) = isObject q := by
  cases q <;> rfl

theorem isObject_withProps (q : JVal) (fs : Fields) :
    isObject (withProps q fs) = isObject q := by
  cases q <;> rfl

theorem props_withProps (q : JVal) (fs : Fields) (hq : isObject q = true) :
    props (withProps q fs) = fs := by
  cases q <;> first | rfl | simp [isObject] at hq

theorem getProp_assign_same (q : JVal) (k : String) (x : JVal) (hq : isObject q = true) :
    getProp (assign q k x) k = x := by
  cases q <;> first
    | (simp [assign, getProp, props, withProps, assocGet_assocSet_same]; done)
    | simp [isObject] at hq

theorem getProp_assign_ne (q : JVal) (k k1 : String) (x : JVal) (h : k1 ≠ k) :
    getProp (assign q k x) k1 = getProp q k1 := by
  cases q <;> simp [assign, getProp, props, withProps, assocGet_assocSet_ne _ _ _ _ h]

theorem hasOwn_assign_ne (q : JVal) (k k1 : String) (x : JVal) (h : k1 ≠ k) :
    hasOwn (assign q k x) k1 = hasOwn q k1 := by
  cases q <;> simp [assign, hasOwn, props, withProps, assocGet_assocSet_ne _ _ _ _ h]

theorem truthy_of_isObject (q : JVal) (hq : isObject q = true) : truthy q = true := by
  cases q <;> first | rfl | simp [isObject] at hq

theorem setProp_of_isObject (q : JVal) (k : String) (x : JVal) (hq : isObject q = true) :
    setProp q k x = .ok (assign q k x) := by
  cases q <;> first | rfl | simp [isObject] at hq

theorem setProp_of_not_isObject (q : JVal) (k : String) (x : JVal) (hq : isObject q = false) :
    setProp q k x = .error .typeError := by
  cases q <;> first | rfl | simp [isObject] at hq

/-! ## The construction of the query -/

/-- Lines 66 to 72 in closed form: the assignment of `form` throws on a value
that is not an object, the call of `hasOwnProperty` throws when the object
has an own property of that name, and otherwise `form` is set and `deleted`
gets its default when it is not an own property. -/
theorem enforce_eq (q formId : JVal) :
    enforce q formId =
      if isObject q then
        if hasOwn q "hasOwnProperty" then .error .typeError
        else if hasOwn q "deleted" then .ok (assign q "form" formId)
        else .ok (assign (assign q "form" formId) "deleted" eqNull)
      else .error .typeError := by
  by_cases hq : isObject q = true
  · have h1 : setProp q "form" formId = .ok (assign q "form" formId) :=
      setProp_of_isObject q _ _ hq
    have h2 : isObject (assign q "form" formId) = true := by rw [isObject_assign]; exact hq
    have h3 : hasOwn (assign q "form" formId) "hasOwnProperty" = hasOwn q "hasOwnProperty" :=
      hasOwn_assign_ne q _ _ _ (by decide)
    have h4 : hasOwn (assign q "form" formId) "deleted" = hasOwn q "deleted" :=
      hasOwn_assign_ne q _ _ _ (by decide)
    simp only [enforce, h1, truthy_of_isObject _ h2, callHasOwnProperty, h3, h4, hq, if_true]
    by_cases hs : hasOwn q "hasOwnProperty" = true
    · simp [hs]
    · by_cases hd : hasOwn q "deleted" = true
      · simp [hs, hd]
      · simp [hs, hd, setProp_of_isObject _ _ _ h2]
  · have hq2 : isObject q = false := by simpa using hq
    simp [enforce, setProp_of_not_isObject q _ _ hq2, hq2]

/-- A query that was built is an object. -/
theorem enforce_ok_isObject (q formId q1 : JVal) (h : enforce q formId = .ok q1) :
    isObject q1 = true := by
  rw [enforce_eq] at h
  by_cases hq : isObject q = true
  · by_cases hs : hasOwn q "hasOwnProperty" = true
    · simp [hq, hs] at h
    · by_cases hd : hasOwn q "deleted" = true
      · simp [hq, hs, hd] at h
        rw [← h, isObject_assign]; exact hq
      · simp [hq, hs, hd] at h
        rw [← h, isObject_assign, isObject_assign]; exact hq
  · simp [hq] at h

/-- A query that was built has `form` equal to the given id. -/
theorem enforce_ok_form (q formId q1 : JVal) (h : enforce q formId = .ok q1) :
    getProp q1 "form" = formId := by
  rw [enforce_eq] at h
  by_cases hq : isObject q = true
  · by_cases hs : hasOwn q "hasOwnProperty" = true
    · simp [hq, hs] at h
    · by_cases hd : hasOwn q "deleted" = true
      · simp [hq, hs, hd] at h
        rw [← h]; exact getProp_assign_same q _ _ hq
      · simp [hq, hs, hd] at h
        rw [← h, getProp_assign_ne _ _ _ _ (by decide)]
        exact getProp_assign_same q _ _ hq
  · simp [hq] at h

/-! ## The handler -/

/-- The handler calls `find` only at the end of the one path on which the
token is present, the format is registered, the form is loaded, the query is
built, the `export` hook accepts and `exporter.init()` resolves. -/
theorem handler_found_inv (env : Env) (req : Request) (q : JVal)
    (h : (handler env req).found = some q) :
    ∃ q1 fs, hookQuery env req = some q1 ∧
      env.alterExport req q1 (env.loadCurrentForm req).2 = .ok fs ∧
      env.init (formatOf env req) (env.loadCurrentForm req).2 req = .ok () ∧
      handler env req = streamStep env req (env.loadCurrentForm req).2
        (buildQuery req.xQuery (env.getFindQuery req)
          (getProp (env.loadCurrentForm req).2 "_id")).logged (withProps q1 fs) := by
  unfold handler at h ⊢
  unfold hookQuery
  by_cases ht : tokenOk req = true
  swap
  · simp [ht, Outcome.early] at h
  by_cases hf : formatOf env req ∈ env.exporters
  swap
  · simp [ht, hf, Outcome.early] at h
  simp only [ht, hf, not_true_eq_false, Bool.not_true, if_false, Bool.false_eq_true] at h ⊢
  unfold formStep at h ⊢
  by_cases he : truthy (env.loadCurrentForm req).1 = true
  · simp [he, Outcome.early] at h
  by_cases hm : truthy (env.loadCurrentForm req).2 = true
  swap
  · simp [he, hm, Outcome.early] at h
  have he2 : truthy (env.loadCurrentForm req).1 = false := by simpa using he
  simp only [he, hm, he2, if_false, Bool.not_true, Bool.false_eq_true, and_self, if_true,
    true_and] at h ⊢
  cases hb : (buildQuery req.xQuery (env.getFindQuery req)
      (getProp (env.loadCurrentForm req).2 "_id")).query with
  | error t => simp [hb, Outcome.early] at h
  | ok q1 =>
    simp only [hb] at h ⊢
    unfold exportStep at h ⊢
    cases ha : env.alterExport req q1 (env.loadCurrentForm req).2 with
    | error m => simp [ha, Outcome.early] at h
    | ok fs =>
      simp only [ha] at h ⊢
      cases hi : env.init (formatOf env req) (env.loadCurrentForm req).2 req with
      | error e => simp [hi, Outcome.early] at h
      | ok u =>
        exact ⟨q1, fs, rfl, ha, rfl, rfl⟩

/-- The query handed to the `export` hook is the built one: the checks of
lines 26 to 47 have passed and lines 49 to 72 have not thrown. -/
theorem hookQuery_some (env : Env) (req : Request) (q1 : JVal)
    (h : hookQuery env req = some q1) :
    (buildQuery req.xQuery (env.getFindQuery req)
      (getProp (env.loadCurrentForm req).2 "_id")).query = .ok q1 := by
  unfold hookQuery at h
  split at h
  · split at h
    · rename_i q hq
      simp at h
      rw [hq, h]
    · simp at h
  · simp at h

theorem hookQuery_isObject (env : Env) (req : Request) (q1 : JVal)
    (h : hookQuery env req = some q1) : isObject q1 = true :=
  enforce_ok_isObject _ _ _ (hookQuery_some env req q1 h)

theorem hookQuery_form (env : Env) (req : Request) (q1 : JVal)
    (h : hookQuery env req = some q1) :
    getProp q1 "form" = getProp (env.loadCurrentForm req).2 "_id" :=
  enforce_ok_form _ _ _ (hookQuery_some env req q1 h)

theorem getProp_ownerFilter_owner (env : Env) (req : Request) (q : JVal)
    (hq : isObject q = true) (hn : nonPrivileged req = true) :
    getProp (ownerFilter env req q) "owner" = env.ObjectId (userId req) := by
  simp only [ownerFilter, hn, if_true]
  exact getProp_assign_same q _ _ hq

theorem getProp_ownerFilter_form (env : Env) (req : Request) (q : JVal) :
    getProp (ownerFilter env req q) "form" = getProp q "form" := by
  unfold ownerFilter
  split
  · exact getProp_assign_ne q _ _ _ (by decide)
  · rfl

/-- Every run of the handler either answers early, with no call of `find`
and nothing queued, or reaches the streaming step. -/
theorem handler_early_or_stream (env : Env) (req : Request) :
    (∃ l r, handler env req = Outcome.early l r) ∨
    (∃ form l q, handler env req = streamStep env req form l q) := by
  unfold handler
  by_cases ht : tokenOk req = true
  swap
  · exact Or.inl ⟨[], .sendStatus 400, by simp [ht]⟩
  by_cases hf : formatOf env req ∈ env.exporters
  swap
  · exact Or.inl ⟨[], .statusSend 400 (str "Unknown format"), by simp [ht, hf]⟩
  simp only [ht, hf, not_true_eq_false, Bool.not_true, if_false, Bool.false_eq_true]
  unfold formStep
  by_cases he : truthy (env.loadCurrentForm req).1 = true
  · exact Or.inl ⟨[], .sendStatus 401, by simp [he]⟩
  by_cases hm : truthy (env.loadCurrentForm req).2 = true
  swap
  · exact Or.inl ⟨[], .sendStatus 404, by simp [he, hm]⟩
  simp only [he, hm, if_false, Bool.not_true, Bool.false_eq_true]
  cases hb : (buildQuery req.xQuery (env.getFindQuery req)
      (getProp (env.loadCurrentForm req).2 "_id")).query with
  | error t => exact Or.inl ⟨_, _, rfl⟩
  | ok q1 =>
    simp only []
    unfold exportStep
    cases ha : env.alterExport req q1 (env.loadCurrentForm req).2 with
    | error m => exact Or.inl ⟨_, _, rfl⟩
    | ok fs =>
      simp only []
      cases hi : env.init (formatOf env req) (env.loadCurrentForm req).2 req with
      | error err => exact Or.inl ⟨_, _, rfl⟩
      | ok u => exact Or.inr ⟨_, _, _, rfl⟩

theorem handler_queued_of_not_found (env : Env) (req : Request)
    (h : (handler env req).found = none) : (handler env req).queued = [] := by
  rcases handler_early_or_stream env req with ⟨l, r, hh⟩ | ⟨form, l, q, hh⟩
  · rw [hh]
    rfl
  · rw [hh] at h
    simp [streamStep] at h

/-! ## The stream -/

theorem foldl_throughWrite (env : Env) (form : JVal) (rows : List Row) (acc : List JVal) :
    rows.foldl (throughWrite env form) { queue := acc, ended := false } =
      { queue := acc ++ rows.map (exportedRow env form), ended := false } := by
  induction rows generalizing acc with
  | nil => simp
  | cons row rows ih =>
    simp only [List.foldl_cons, List.map_cons]
    have h1 : throughWrite env form { queue := acc, ended := false } row =
        { queue := acc ++ [exportedRow env form row], ended := false } := by
      simp [throughWrite, Stream.enqueue, exportedRow]
    rw [h1, ih]
    simp

theorem pipe_eq (env : Env) (form : JVal) (rows : List Row) :
    pipe env form rows = { queue := rows.map (exportedRow env form), ended := true } := by
  unfold pipe
  rw [foldl_throughWrite]
  simp [Stream.enqueue]

/-! ## Link injection -/

theorem eraseFields_assocSet_url (u : JVal) (fs : Fields) :
    eraseFields (assocSet "url" u fs) = eraseFields fs := by
  induction fs with
  | nil => simp [assocSet, eraseFields]
  | cons kv fs ih =>
    obtain ⟨k, v⟩ := kv
    by_cases h : k = "url"
    · simp [assocSet, eraseFields, h]
    · simp [assocSet, eraseFields, h, ih]

mutual
theorem eraseUrl_addUrl (e : UrlEnv) : ∀ d : JVal, eraseUrl (addUrl e d) = eraseUrl d
  | arr items ps => by simp [addUrl, eraseUrl, eraseItems_addUrlItems e items]
  | obj fields => by
    simp only [addUrl]
    split
    · simp [eraseUrl, eraseFields_addUrlIndexed e _ fields]
    · simp [eraseUrl, eraseFields_addUrlOwn e fields]
  | undefined => rfl
  | null => rfl
  | .bool _ => rfl
  | num _ => rfl
  | str _ => rfl
theorem eraseUrl_addUrlField (e : UrlEnv) : ∀ w : JVal, eraseUrl (addUrlField e w) = eraseUrl w
  | arr items ps => by
    simp only [addUrlField]
    split
    · simp [eraseUrl, eraseFields_assocSet_url, eraseFields_addUrlData e ps]
    · rfl
  | obj fields => by
    simp only [addUrlField]
    split
    · simp [eraseUrl, eraseFields_assocSet_url, eraseFields_addUrlData e fields]
    · rfl
  | undefined => rfl
  | null => rfl
  | .bool _ => rfl
  | num _ => rfl
  | str _ => rfl
theorem eraseItems_addUrlItems (e : UrlEnv) :
    ∀ l : List JVal, eraseItems (addUrlItems e l) = eraseItems l
  | [] => rfl
  | v :: vs => by
    simp [addUrlItems, eraseItems, eraseUrl_addUrlField e v, eraseItems_addUrlItems e vs]
theorem eraseFields_addUrlOwn (e : UrlEnv) :
    ∀ fs : Fields, eraseFields (addUrlOwn e fs) = eraseFields fs
  | [] => rfl
  | (k, v) :: fs => by
    simp [addUrlOwn, eraseFields, eraseUrl_addUrlField e v, eraseFields_addUrlOwn e fs]
theorem eraseFields_addUrlIndexed (e : UrlEnv) (n : Nat) :
    ∀ fs : Fields, eraseFields (addUrlIndexed e n fs) = eraseFields fs
  | [] => rfl
  | (k, v) :: fs => by
    simp only [addUrlIndexed]
    split <;>
      simp [eraseFields, eraseUrl_addUrlField e v, eraseFields_addUrlIndexed e n fs]
theorem eraseFields_addUrlData (e : UrlEnv) :
    ∀ fs : Fields, eraseFields (addUrlData e fs) = eraseFields fs
  | [] => rfl
  | (k, v) :: fs => by
    simp only [addUrlData]
    split
    · rename_i h
      simp [eraseFields, h, eraseUrl_addUrl e v]
    · rename_i h
      simp [eraseFields, eraseFields_addUrlData e fs]
end

theorem assocGet_addUrlData (e : UrlEnv) (k : String) (fs : Fields) :
    assocGet k (addUrlData e fs) =
      if k = "data" then (assocGet k fs).map (addUrl e) else assocGet k fs := by
  induction fs with
  | nil => simp [addUrlData, assocGet]
  | cons kv fs ih =>
    obtain ⟨k1, v⟩ := kv
    by_cases h1 : k1 = "data"
    · subst h1
      by_cases h2 : k = "data"
      · subst h2
        simp [addUrlData, assocGet]
      · simp [addUrlData, assocGet, h2, Ne.symm h2]
    · by_cases h3 : k1 = k
      · subst h3
        simp [addUrlData, assocGet, h1]
      · simp only [addUrlData, h1, if_false, assocGet, h3, ih]

theorem assocGet_addUrlOwn (e : UrlEnv) (k : String) (fs : Fields) :
    assocGet k (addUrlOwn e fs) = (assocGet k fs).map (addUrlField e) := by
  induction fs with
  | nil => simp [addUrlOwn, assocGet]
  | cons kv fs ih =>
    obtain ⟨k1, v⟩ := kv
    by_cases h : k1 = k
    · simp [addUrlOwn, assocGet, h]
    · simp [addUrlOwn, assocGet, h, ih]

theorem assocGet_addUrlIndexed (e : UrlEnv) (n : Nat) (k : String) (fs : Fields) :
    assocGet k (addUrlIndexed e n fs) =
      if isIndexBelow n k then (assocGet k fs).map (addUrlField e) else assocGet k fs := by
  induction fs with
  | nil => simp [addUrlIndexed, assocGet]
  | cons kv fs ih =>
    obtain ⟨k1, v⟩ := kv
    by_cases h : k1 = k
    · subst h
      by_cases hi : isIndexBelow n k1 = true
      · simp [addUrlIndexed, assocGet, hi]
      · simp [addUrlIndexed, assocGet, hi]
    · by_cases hi : isIndexBelow n k1 = true
      · simp [addUrlIndexed, assocGet, hi, h, ih]
      · simp [addUrlIndexed, assocGet, hi, h, ih]

/-- The two writes of the iteratee commute: setting `url` and then running
`addUrl` on `data`, as the source does, gives the state that `addUrlField`
builds in the other order. -/
theorem addUrlData_assocSet (e : UrlEnv) (u : JVal) (fs : Fields) :
    addUrlData e (assocSet "url" u fs) = assocSet "url" u (addUrlData e fs) := by
  induction fs with
  | nil => simp [addUrlData, assocSet]
  | cons kv fs ih =>
    obtain ⟨k1, v⟩ := kv
    by_cases h1 : k1 = "data"
    · subst h1
      simp [addUrlData, assocSet]
    · by_cases h2 : k1 = "url"
      · subst h2
        simp [addUrlData, assocSet]
      · simp [addUrlData, assocSet, h1, h2, ih]

theorem isObject_of_idBearing (w : JVal) (h : idBearing w = true) : isObject w = true := by
  cases w <;> first | rfl | simp [idBearing, truthy, getProp, props, assocGet] at h

theorem addUrlField_of_not_idBearing (e : UrlEnv) (w : JVal) (h : idBearing w = false) :
    addUrlField e w = w := by
  cases w with
  | arr items ps =>
    have h1 : truthy (getProp (arr items ps) "_id") = false := h
    simp only [addUrlField, h1, Bool.false_eq_true, if_false]
  | obj fields =>
    have h1 : truthy (getProp (obj fields) "_id") = false := h
    simp only [addUrlField, h1, Bool.false_eq_true, if_false]
  | _ => rfl

theorem addUrlField_of_idBearing (e : UrlEnv) (w : JVal) (h : idBearing w = true) :
    addUrlField e w = withProps w (assocSet "url" (fieldUrlOf e w) (addUrlData e (props w))) := by
  cases w with
  | arr items ps =>
    have h1 : truthy (getProp (arr items ps) "_id") = true := h
    simp only [addUrlField, h1, if_true, withProps, props]
  | obj fields =>
    have h1 : truthy (getProp (obj fields) "_id") = true := h
    simp only [addUrlField, h1, if_true, withProps, props]
  | _ => simp [idBearing, truthy, getProp, props, assocGet] at h

theorem getProp_addUrlField_url (e : UrlEnv) (w : JVal) (h : idBearing w = true) :
    getProp (addUrlField e w) "url" = fieldUrlOf e w := by
  rw [addUrlField_of_idBearing e w h, getProp,
    props_withProps w _ (isObject_of_idBearing w h), assocGet_assocSet_same]
  rfl

theorem getProp_addUrlField_data (e : UrlEnv) (w : JVal) (h : idBearing w = true) :
    getProp (addUrlField e w) "data" = addUrl e (getProp w "data") := by
  rw [addUrlField_of_idBearing e w h, getProp,
    props_withProps w _ (isObject_of_idBearing w h),
    assocGet_assocSet_ne _ _ _ _ (by decide), assocGet_addUrlData]
  simp only [if_true, getProp]
  cases assocGet "data" (props w) <;> rfl

theorem getProp_addUrlField_other (e : UrlEnv) (w : JVal) (k : String)
    (hu : k ≠ "url") (hd : k ≠ "data") :
    getProp (addUrlField e w) k = getProp w k := by
  by_cases h : idBearing w = true
  · rw [addUrlField_of_idBearing e w h, getProp,
      props_withProps w _ (isObject_of_idBearing w h),
      assocGet_assocSet_ne _ _ _ _ hu, assocGet_addUrlData]
    simp [hd, getProp]
  · have h2 : idBearing w = false := by simpa using h
    rw [addUrlField_of_not_idBearing e w h2]

theorem idBearing_addUrlField (e : UrlEnv) (w : JVal) :
    idBearing (addUrlField e w) = idBearing w := by
  by_cases h : idBearing w = true
  · have hobj := isObject_of_idBearing w h
    have hid := getProp_addUrlField_other e w "_id" (by decide) (by decide)
    have hobj2 : isObject (addUrlField e w) = true := by
      rw [addUrlField_of_idBearing e w h, isObject_withProps]; exact hobj
    simp only [idBearing, hid, truthy_of_isObject _ hobj, truthy_of_isObject _ hobj2]
  · have h2 : idBearing w = false := by simpa using h
    rw [addUrlField_of_not_idBearing e w h2]

theorem addUrlItems_eq_map (e : UrlEnv) (l : List JVal) :
    addUrlItems e l = l.map (addUrlField e) := by
  induction l with
  | nil => rfl
  | cons v vs ih => simp [addUrlItems, ih]

theorem map_snd_addUrlOwn (e : UrlEnv) (fs : Fields) :
    (addUrlOwn e fs).map Prod.snd = (fs.map Prod.snd).map (addUrlField e) := by
  induction fs with
  | nil => rfl
  | cons kv fs ih =>
    obtain ⟨k, v⟩ := kv
    simp [addUrlOwn, ih]

theorem filter_addUrlIndexed (e : UrlEnv) (n : Nat) (fs : Fields) :
    ((addUrlIndexed e n fs).filter (fun kv => isIndexBelow n kv.1)).map Prod.snd =
      ((fs.filter (fun kv => isIndexBelow n kv.1)).map Prod.snd).map (addUrlField e) := by
  induction fs with
  | nil => rfl
  | cons kv fs ih =>
    obtain ⟨k, v⟩ := kv
    by_cases hi : isIndexBelow n k = true
    · simp only [addUrlIndexed, hi, if_true, List.filter_cons, List.map_cons, ih]
    · simp only [addUrlIndexed, hi, if_false, List.filter_cons, ih, Bool.false_eq_true]

/-- The iteratee never turns a value into a number or a number into
something else, so that it leaves the `length` test of `isArrayLike` as it
was. -/
theorem lengthTest_addUrlField (e : UrlEnv) (o : Option JVal) :
    (match o.map (addUrlField e) with
      | some (num n) => if 0 ≤ n ∧ n ≤ MAX_SAFE_INTEGER then some n.toNat else none
      | _ => none) =
    (match o with
      | some (num n) => if 0 ≤ n ∧ n ≤ MAX_SAFE_INTEGER then some n.toNat else none
      | _ => none) := by
  cases o with
  | none => rfl
  | some v =>
    cases v with
    | arr items ps =>
      simp only [Option.map_some', addUrlField]
      by_cases h : truthy (getProp (arr items ps) "_id") = true
      · simp only [h, if_true]
      · simp only [h, if_false, Bool.false_eq_true]
    | obj fields =>
      simp only [Option.map_some', addUrlField]
      by_cases h : truthy (getProp (obj fields) "_id") = true
      · simp only [h, if_true]
      · simp only [h, if_false, Bool.false_eq_true]
    | _ => rfl

theorem arrayLikeLength_addUrlOwn (e : UrlEnv) (fs : Fields) :
    arrayLikeLength (addUrlOwn e fs) = arrayLikeLength fs := by
  unfold arrayLikeLength
  rw [assocGet_addUrlOwn]
  exact lengthTest_addUrlField e _

theorem arrayLikeLength_addUrlIndexed (e : UrlEnv) (n : Nat) (fs : Fields) :
    arrayLikeLength (addUrlIndexed e n fs) = arrayLikeLength fs := by
  unfold arrayLikeLength
  rw [assocGet_addUrlIndexed]
  have h : isIndexBelow n "length" = false := rfl
  simp only [h, Bool.false_eq_true, if_false]

/-- The values that `_.each` visits in the data after `addUrl` are the values
it visited before, each after the iteratee has run on it. -/
theorem visited_addUrl (e : UrlEnv) (d : JVal) :
    visited (addUrl e d) = (visited d).map (addUrlField e) := by
  cases d with
  | arr items ps => simp [addUrl, visited, addUrlItems_eq_map]
  | obj fields =>
    cases h : arrayLikeLength fields with
    | none =>
      simp only [addUrl, h, visited, arrayLikeLength_addUrlOwn, map_snd_addUrlOwn]
    | some n =>
      simp only [addUrl, h, visited, arrayLikeLength_addUrlIndexed, filter_addUrlIndexed]
  | _ => rfl

/-- Link injection follows every path: a value that `addUrl` reaches in the
data is, at the same path in the data afterwards, that value after the
iteratee has run on it. -/
theorem reach_addUrl (e : UrlEnv) (p : List Nat) :
    ∀ (d v : JVal), reach d p = some v → reach (addUrl e d) p = some (addUrlField e v) := by
  induction p with
  | nil => intro d v h; simp [reach] at h
  | cons i p ih =>
    intro d v h
    cases p with
    | nil =>
      simp only [reach] at h ⊢
      rw [visited_addUrl, List.getElem?_map, h]
      rfl
    | cons j p =>
      simp only [reach] at h ⊢
      rw [visited_addUrl, List.getElem?_map]
      cases hw : (visited d)[i]? with
      | none => simp [hw] at h
      | some w =>
        simp only [hw] at h
        simp only [Option.map_some', idBearing_addUrlField]
        by_cases hid : idBearing w = true
        · simp only [hid, if_true] at h ⊢
          rw [getProp_addUrlField_data e w hid]
          exact ih _ _ h
        · simp [hid] at h

theorem reach_nest (k : Nat) :
    reach (nest (k + 1)) (List.replicate (k + 1) 0) = some (linkOf (nest 0)) := by
  induction k with
  | zero => rfl
  | succ k ih =>
    have h : reach (nest (k + 1 + 1)) (0 :: 0 :: List.replicate k 0) =
        reach (nest (k + 1)) (0 :: List.replicate k 0) := rfl
    rw [List.replicate_succ, List.replicate_succ, h, ← List.replicate_succ]
    exact ih

theorem rowData_addUrlData (e : UrlEnv) (row : Row) :
    rowData (addUrlData e row) = addUrl e (rowData row) := by
  simp only [rowData, getProp, props, assocGet_addUrlData, if_true]
  cases assocGet "data" row <;> rfl

theorem hasOwn_addUrlField_url (e : UrlEnv) (w : JVal) (h : idBearing w = true) :
    hasOwn (addUrlField e w) "url" = true := by
  rw [addUrlField_of_idBearing e w h, hasOwn,
    props_withProps w _ (isObject_of_idBearing w h), assocGet_assocSet_same]
  rfl

theorem hasOwn_addUrl (e : UrlEnv) (d : JVal) (k : String) :
    hasOwn (addUrl e d) k = hasOwn d k := by
  cases d with
  | arr items ps => rfl
  | obj fields =>
    cases h : arrayLikeLength fields with
    | none =>
      simp only [addUrl, h, hasOwn, props, assocGet_addUrlOwn, Option.isSome_map']
    | some n =>
      simp only [addUrl, h, hasOwn, props, assocGet_addUrlIndexed]
      split
      · simp only [Option.isSome_map']
      · rfl
  | _ => rfl

/-! ## Runs of link injection -/

theorem plain_of_assocGet (k : String) (v : JVal) (fs : Fields)
    (hp : plainFields fs = true) (h : assocGet k fs = some v) : plain v = true := by
  induction fs with
  | nil => simp [assocGet] at h
  | cons kv fs ih =>
    obtain ⟨k1, v1⟩ := kv
    simp only [plainFields, Bool.and_eq_true] at hp
    by_cases hk : k1 = k
    · simp only [assocGet, hk, if_true, Option.some.injEq] at h
      rw [← h]; exact hp.1
    · simp only [assocGet, hk, if_false] at h
      exact ih hp.2 h

theorem depth_le_of_assocGet (k : String) (v : JVal) (fs : Fields)
    (h : assocGet k fs = some v) : depth v ≤ depthFields fs := by
  induction fs with
  | nil => simp [assocGet] at h
  | cons kv fs ih =>
    obtain ⟨k1, v1⟩ := kv
    by_cases hk : k1 = k
    · simp only [assocGet, hk, if_true, Option.some.injEq] at h
      rw [← h]; simp only [depthFields]; exact le_max_left _ _
    · simp only [assocGet, hk, if_false] at h
      simp only [depthFields]
      exact le_trans (ih h) (le_max_right _ _)

theorem plainFields_props (w : JVal) (h : plain w = true) : plainFields (props w) = true := by
  cases w with
  | arr items ps =>
    simp only [plain, Bool.and_eq_true] at h
    exact h.2
  | obj fields =>
    simp only [plain, Bool.and_eq_true] at h
    exact h.2
  | _ => rfl

theorem plain_getProp (w : JVal) (k : String) (h : plain w = true) :
    plain (getProp w k) = true := by
  unfold getProp
  cases hg : assocGet k (props w) with
  | none => rfl
  | some v => exact plain_of_assocGet k v _ (plainFields_props w h) hg

mutual
theorem templateString_of_plain : ∀ v : JVal, plain v = true → templateString v = .ok (toStr v)
  | undefined, _ => rfl
  | null, _ => rfl
  | .bool true, _ => rfl
  | .bool false, _ => rfl
  | num _, _ => rfl
  | str _, _ => rfl
  | arr items ps, h => by
    simp only [plain, Bool.and_eq_true, Bool.not_eq_true'] at h
    simp only [templateString, toStr, h.1.1.1, h.1.1.2, Bool.false_eq_true, if_false]
    exact joinRun_of_plain items h.1.2
  | obj fields, h => by
    simp only [plain, Bool.and_eq_true, Bool.not_eq_true'] at h
    simp only [templateString, toStr, h.1, Bool.false_eq_true, if_false]
theorem joinRun_of_plain : ∀ l : List JVal, plainItems l = true → joinRun l = .ok (joinItems l)
  | [], _ => rfl
  | [v], h => by
    simp only [plainItems, Bool.and_eq_true] at h
    simp only [joinRun, joinItems]
    split
    · rfl
    · exact templateString_of_plain v h.1
  | v :: w :: vs, h => by
    simp only [plainItems, Bool.and_eq_true] at h
    have h2 : plainItems (w :: vs) = true := by
      simp only [plainItems, Bool.and_eq_true]; exact h.2
    simp only [joinRun, joinItems, joinRun_of_plain (w :: vs) h2]
    by_cases hn : isNullish v = true
    · simp only [hn, if_true]
    · simp only [hn, if_false, templateString_of_plain v h.1, Bool.false_eq_true]
end

theorem replaceData_addUrl (e : UrlEnv) (fs : Fields) :
    replaceData (addUrl e ((assocGet "data" fs).getD undefined)) fs = addUrlData e fs := by
  induction fs with
  | nil => rfl
  | cons kv fs ih =>
    obtain ⟨k, v⟩ := kv
    by_cases hk : k = "data"
    · subst hk
      simp [replaceData, addUrlData, assocGet]
    · simp only [replaceData, addUrlData, assocGet, hk, if_false, ih]

theorem fieldRun_of_not_idBearing (e : UrlEnv) (run : JVal → Except RunError JVal) (w : JVal)
    (h : idBearing w = false) : fieldRun e run w = .ok w := by
  simp only [fieldRun, h, Bool.false_eq_true, if_false]

theorem fieldRun_of_idBearing (e : UrlEnv) (run : JVal → Except RunError JVal) (w : JVal)
    (hid : idBearing w = true) (hp : plain w = true)
    (hrun : run ((assocGet "data" (props w)).getD undefined) =
      .ok (addUrl e ((assocGet "data" (props w)).getD undefined))) :
    fieldRun e run w = .ok (addUrlField e w) := by
  have hf := templateString_of_plain _ (plain_getProp w "form" hp)
  have hi := templateString_of_plain _ (plain_getProp w "_id" hp)
  have hd : getProp w "data" = (assocGet "data" (props w)).getD undefined := rfl
  simp only [fieldRun, hid, if_true, hf, hi, hd, hrun, replaceData_addUrl]
  rw [addUrlField_of_idBearing e w hid]
  rfl

mutual
theorem addUrlRun_of_plain (e : UrlEnv) :
    ∀ (d : JVal) (s : Nat), plain d = true → depth d < s → addUrlRun e s d = .ok (addUrl e d)
  | arr items ps, s, hp, hd => by
    cases s with
    | zero => simp at hd
    | succ s =>
      simp only [depth] at hd
      simp only [plain, Bool.and_eq_true] at hp
      have h1 := itemsRun_of_plain e items s hp.1.2 (by omega)
      simp only [addUrlRun, eachRun, h1, addUrl]
  | obj fields, s, hp, hd => by
    cases s with
    | zero => simp at hd
    | succ s =>
      simp only [depth] at hd
      simp only [plain, Bool.and_eq_true] at hp
      simp only [addUrlRun, eachRun, addUrl]
      cases arrayLikeLength fields with
      | none => simp only [ownRun_of_plain e fields s hp.2 (by omega)]
      | some n => simp only [indexedRun_of_plain e n fields s hp.2 (by omega)]
  | undefined, s, _, hd => by
    cases s with
    | zero => simp at hd
    | succ s => rfl
  | null, s, _, hd => by
    cases s with
    | zero => simp at hd
    | succ s => rfl
  | .bool _, s, _, hd => by
    cases s with
    | zero => simp at hd
    | succ s => rfl
  | num _, s, _, hd => by
    cases s with
    | zero => simp at hd
    | succ s => rfl
  | str _, s, _, hd => by
    cases s with
    | zero => simp at hd
    | succ s => rfl
theorem fieldRun_of_plain (e : UrlEnv) :
    ∀ (w : JVal) (s : Nat), plain w = true → depth w < s →
      fieldRun e (addUrlRun e s) w = .ok (addUrlField e w)
  | arr items ps, s, hp, hd => by
    by_cases hid : idBearing (arr items ps) = true
    · simp only [depth] at hd
      exact fieldRun_of_idBearing e _ _ hid hp
        (dataRun_of_plain e ps s (plainFields_props _ hp) (by omega))
    · have h2 : idBearing (arr items ps) = false := by simpa using hid
      rw [fieldRun_of_not_idBearing e _ _ h2, addUrlField_of_not_idBearing e _ h2]
  | obj fields, s, hp, hd => by
    by_cases hid : idBearing (obj fields) = true
    · simp only [depth] at hd
      exact fieldRun_of_idBearing e _ _ hid hp
        (dataRun_of_plain e fields s (plainFields_props _ hp) (by omega))
    · have h2 : idBearing (obj fields) = false := by simpa using hid
      rw [fieldRun_of_not_idBearing e _ _ h2, addUrlField_of_not_idBearing e _ h2]
  | undefined, _, _, _ => rfl
  | null, _, _, _ => rfl
  | .bool b, _, _, _ => by
    have h : idBearing (.bool b) = false := by
      simp [idBearing, getProp, props, assocGet, truthy]
    rw [fieldRun_of_not_idBearing e _ _ h, addUrlField_of_not_idBearing e _ h]
  | num n, _, _, _ => by
    have h : idBearing (num n) = false := by
      simp [idBearing, getProp, props, assocGet, truthy]
    rw [fieldRun_of_not_idBearing e _ _ h, addUrlField_of_not_idBearing e _ h]
  | str t, _, _, _ => by
    have h : idBearing (str t) = false := by
      simp [idBearing, getProp, props, assocGet, truthy]
    rw [fieldRun_of_not_idBearing e _ _ h, addUrlField_of_not_idBearing e _ h]
theorem itemsRun_of_plain (e : UrlEnv) :
    ∀ (l : List JVal) (s : Nat), plainItems l = true → depthItems l < s →
      itemsRun (fieldRun e (addUrlRun e s)) l = .ok (addUrlItems e l)
  | [], _, _, _ => rfl
  | v :: vs, s, hp, hd => by
    simp only [plainItems, Bool.and_eq_true] at hp
    simp only [depthItems] at hd
    simp only [itemsRun, addUrlItems, fieldRun_of_plain e v s hp.1 (by omega),
      itemsRun_of_plain e vs s hp.2 (by omega)]
theorem ownRun_of_plain (e : UrlEnv) :
    ∀ (fs : Fields) (s : Nat), plainFields fs = true → depthFields fs < s →
      ownRun (fieldRun e (addUrlRun e s)) (fun _ => true) fs = .ok (addUrlOwn e fs)
  | [], _, _, _ => rfl
  | (k, v) :: fs, s, hp, hd => by
    simp only [plainFields, Bool.and_eq_true] at hp
    simp only [depthFields] at hd
    simp only [ownRun, addUrlOwn, if_true, fieldRun_of_plain e v s hp.1 (by omega),
      ownRun_of_plain e fs s hp.2 (by omega)]
theorem indexedRun_of_plain (e : UrlEnv) (n : Nat) :
    ∀ (fs : Fields) (s : Nat), plainFields fs = true → depthFields fs < s →
      ownRun (fieldRun e (addUrlRun e s)) (isIndexBelow n) fs = .ok (addUrlIndexed e n fs)
  | [], _, _, _ => rfl
  | (k, v) :: fs, s, hp, hd => by
    simp only [plainFields, Bool.and_eq_true] at hp
    simp only [depthFields] at hd
    simp only [ownRun, addUrlIndexed, indexedRun_of_plain e n fs s hp.2 (by omega)]
    by_cases hi : isIndexBelow n k = true
    · simp only [hi, if_true, fieldRun_of_plain e v s hp.1 (by omega)]
    · simp only [hi, if_false, Bool.false_eq_true]
theorem dataRun_of_plain (e : UrlEnv) :
    ∀ (fs : Fields) (s : Nat), plainFields fs = true → depthFields fs < s →
      addUrlRun e s ((assocGet "data" fs).getD undefined) =
        .ok (addUrl e ((assocGet "data" fs).getD undefined))
  | [], s, _, hd => by
    cases s with
    | zero => simp at hd
    | succ s => rfl
  | (k, v) :: fs, s, hp, hd => by
    simp only [plainFields, Bool.and_eq_true] at hp
    simp only [depthFields] at hd
    by_cases hk : k = "data"
    · subst hk
      simp only [assocGet, if_true, Option.getD_some]
      exact addUrlRun_of_plain e v s hp.1 (by omega)
    · simp only [assocGet, hk, if_false]
      exact dataRun_of_plain e fs s hp.2 (by omega)
end

theorem plain_of_mem_items (l : List JVal) (v : JVal) (hp : plainItems l = true)
    (h : v ∈ l) : plain v = true := by
  induction l with
  | nil => simp at h
  | cons w ws ih =>
    simp only [plainItems, Bool.and_eq_true] at hp
    rcases List.mem_cons.mp h with h1 | h1
    · rw [h1]; exact hp.1
    · exact ih hp.2 h1

theorem plain_of_mem_fields (fs : Fields) (kv : String × JVal) (hp : plainFields fs = true)
    (h : kv ∈ fs) : plain kv.2 = true := by
  induction fs with
  | nil => simp at h
  | cons w ws ih =>
    obtain ⟨k1, v1⟩ := w
    simp only [plainFields, Bool.and_eq_true] at hp
    rcases List.mem_cons.mp h with h1 | h1
    · rw [h1]; exact hp.1
    · exact ih hp.2 h1

theorem plain_of_visited (d v : JVal) (i : Nat) (hp : plain d = true)
    (h : (visited d)[i]? = some v) : plain v = true := by
  have hm : v ∈ visited d := List.getElem?_mem h
  cases d with
  | arr items ps =>
    simp only [plain, Bool.and_eq_true] at hp
    exact plain_of_mem_items items v hp.1.2 hm
  | obj fields =>
    simp only [plain, Bool.and_eq_true] at hp
    simp only [visited] at hm
    split at hm
    · obtain ⟨kv, hkv, rfl⟩ := List.mem_map.mp hm
      exact plain_of_mem_fields fields kv hp.2 (List.mem_filter.mp hkv).1
    · obtain ⟨kv, hkv, rfl⟩ := List.mem_map.mp hm
      exact plain_of_mem_fields fields kv hp.2 hkv
  | _ => simp [visited] at hm

/-- Every value that `addUrl` reaches in plain data is plain. -/
theorem plain_of_reach (p : List Nat) :
    ∀ (d v : JVal), plain d = true → reach d p = some v → plain v = true := by
  induction p with
  | nil => intro d v _ h; simp [reach] at h
  | cons i p ih =>
    intro d v hp h
    cases p with
    | nil =>
      simp only [reach] at h
      exact plain_of_visited d v i hp h
    | cons j p =>
      simp only [reach] at h
      cases hw : (visited d)[i]? with
      | none => simp [hw] at h
      | some w =>
        simp only [hw] at h
        by_cases hid : idBearing w = true
        · simp only [hid, if_true] at h
          exact ih _ _ (plain_getProp w "data" (plain_of_visited d w i hp hw)) h
        · simp [hid] at h

theorem plain_nest (n : Nat) : plain (nest n) = true := by
  induction n with
  | zero => rfl
  | succ n ih =>
    have h1 : plain (nest (n + 1)) = (true && (true && (true && (plain (nest n) && true)) && true)) :=
      rfl
    rw [h1, ih]
    rfl

/-- A run on the record with `n` nested linked records returns when the
stack has room for more than `n` nested calls. -/
theorem addUrlRun_nest (e : UrlEnv) (n : Nat) :
    ∀ s : Nat, n < s → addUrlRun e s (nest n) = .ok (addUrl e (nest n)) := by
  induction n with
  | zero =>
    intro s hs
    cases s with
    | zero => simp at hs
    | succ s => rfl
  | succ n ih =>
    intro s hs
    cases s with
    | zero => simp at hs
    | succ s =>
      have hrun : addUrlRun e s ((assocGet "data" (props (linkOf (nest n)))).getD undefined) =
          .ok (addUrl e ((assocGet "data" (props (linkOf (nest n)))).getD undefined)) :=
        ih s (by omega)
      have hplain : plain (linkOf (nest n)) = true := by
        have h := plain_nest (n + 1)
        simp only [nest, plain, plainFields, Bool.and_eq_true] at h
        exact h.2.1
      have hf := fieldRun_of_idBearing e (addUrlRun e s) (linkOf (nest n)) rfl hplain hrun
      have ha : arrayLikeLength [("ref", linkOf (nest n))] = none := rfl
      simp only [nest, addUrlRun, eachRun, ha, ownRun, if_true, hf, addUrl, addUrlOwn]

/-- A run on the record with `n` nested linked records ends in the
`RangeError` of the runtime when the stack has room for `n` nested calls at
most. -/
theorem addUrlRun_nest_overflow (e : UrlEnv) (n : Nat) :
    ∀ s : Nat, s ≤ n → addUrlRun e s (nest n) = .error .rangeError := by
  induction n with
  | zero =>
    intro s hs
    have h0 : s = 0 := by omega
    subst h0
    rfl
  | succ n ih =>
    intro s hs
    cases s with
    | zero => rfl
    | succ s =>
      have hrun : addUrlRun e s (getProp (linkOf (nest n)) "data") = .error .rangeError :=
        ih s (by omega)
      have hid : idBearing (linkOf (nest n)) = true := rfl
      have hf1 : templateString (getProp (linkOf (nest n)) "form") = .ok "f" := rfl
      have hi1 : templateString (getProp (linkOf (nest n)) "_id") = .ok "1" := rfl
      have hf : fieldRun e (addUrlRun e s) (linkOf (nest n)) = .error .rangeError := by
        simp only [fieldRun, hid, if_true, hf1, hi1, hrun]
      have ha : arrayLikeLength [("ref", linkOf (nest n))] = none := rfl
      simp only [nest, addUrlRun, eachRun, ha, ownRun, if_true, hf]

theorem addUrlOwn_eq_map (e : UrlEnv) (fs : Fields) :
    addUrlOwn e fs = fs.map (fun kv => (kv.1, addUrlField e kv.2)) := by
  induction fs with
  | nil => rfl
  | cons kv fs ih =>
    obtain ⟨k, v⟩ := kv
    simp [addUrlOwn, ih]

theorem addUrlIndexed_eq_map (e : UrlEnv) (n : Nat) (fs : Fields) :
    addUrlIndexed e n fs =
      fs.map (fun kv => (kv.1, if isIndexBelow n kv.1 then addUrlField e kv.2 else kv.2)) := by
  induction fs with
  | nil => rfl
  | cons kv fs ih =>
    obtain ⟨k, v⟩ := kv
    simp [addUrlIndexed, ih]

theorem addUrlData_of_no_data (e : UrlEnv) (fs : Fields) (h : ∀ kv ∈ fs, kv.1 ≠ "data") :
    addUrlData e fs = fs := by
  induction fs with
  | nil => rfl
  | cons kv fs ih =>
    obtain ⟨k, v⟩ := kv
    have hk : k ≠ "data" := h (k, v) (List.mem_cons_self _ _)
    simp only [addUrlData, hk, if_false]
    rw [ih (fun kv hkv => h kv (List.mem_cons_of_mem _ hkv))]

theorem addUrlData_at_data (e : UrlEnv) (pre : Fields) (x : JVal) (post : Fields)
    (h : ∀ kv ∈ pre, kv.1 ≠ "data") :
    addUrlData e (pre ++ ("data", x) :: post) = pre ++ ("data", addUrl e x) :: post := by
  induction pre with
  | nil => simp [addUrlData]
  | cons kv pre ih =>
    obtain ⟨k, v⟩ := kv
    have hk : k ≠ "data" := h (k, v) (List.mem_cons_self _ _)
    have h2 := ih (fun kv hkv => h kv (List.mem_cons_of_mem _ hkv))
    show addUrlData e ((k, v) :: (pre ++ ("data", x) :: post)) = _
    simp only [addUrlData, hk, if_false, h2, List.cons_append]

/-! ## The claims about the query and the handler -/

/-- C1: the scope injection for every header value.  It fails on the code:
with the header `null` the assignment `query.form = form._id` of line 67
throws a `TypeError` for every request-derived filter and every form id, no
query is built, and the handler of the example request ends with that
exception uncaught and without a call of `find`. -/
theorem C1_null_header_throws :
    (∀ (derived : Fields) (formId : JVal),
      (buildQuery (.parsed null) derived formId).query = .error .typeError) ∧
    (handler demoEnv { demoReq with xQuery := .parsed null }).response = .uncaught .typeError ∧
    (handler demoEnv { demoReq with xQuery := .parsed null }).found = none :=
  ⟨fun _ _ => rfl, rfl, rfl⟩

/-- C2, as stated, fails: the handler opens the cursor with the result of the
`submissionQuery` hook, and with a hook that deletes `owner` the query of a
request without privileges has no `owner` at all. -/
theorem C2_counterexample :
    nonPrivileged demoReq = true ∧
    (handler dropOwnerEnv demoReq).found =
      some (obj [("data.name", str "x"), ("form", str "F1"), ("deleted", eqNull)]) ∧
    getProp (obj [("data.name", str "x"), ("form", str "F1"), ("deleted", eqNull)]) "owner" ≠
      dropOwnerEnv.ObjectId (userId demoReq) := by
  refine ⟨rfl, rfl, ?_⟩
  intro h
  change JVal.undefined = JVal.str "u1" at h
  cases h

/-- C2, amended: for every request without privileges that reaches the
streaming step, whatever the header, the filter and the `export` hook, the
query handed to the `submissionQuery` hook has `owner` equal to
`ObjectId(req.token.user._id)`, and the cursor is opened with what that hook
returns; when the hook returns its argument, the query of the cursor has that
`owner`. -/
theorem C2_owner_set_before_submissionQuery (env : Env) (req : Request) (q : JVal)
    (hn : nonPrivileged req = true) (h : (handler env req).found = some q) :
    (∃ q0, q = env.alterSubmissionQuery q0 req ∧
      getProp q0 "owner" = env.ObjectId (userId req)) ∧
    ((∀ x, env.alterSubmissionQuery x req = x) →
      getProp q "owner" = env.ObjectId (userId req)) := by
  obtain ⟨q1, fs, hq1, _, _, hh⟩ := handler_found_inv env req q h
  have hobj : isObject (withProps q1 fs) = true := by
    rw [isObject_withProps]; exact hookQuery_isObject env req q1 hq1
  have howner := getProp_ownerFilter_owner env req (withProps q1 fs) hobj hn
  rw [hh] at h
  simp only [streamStep, Option.some.injEq] at h
  refine ⟨⟨_, h.symm, howner⟩, ?_⟩
  intro hid
  rw [← h, hid]
  exact howner

/-- C2, amended, at the example request, where the `submissionQuery` hook
returns its argument. -/
theorem C2_owner_set_before_submissionQuery_witness :
    (∃ q0, obj [("data.name", str "x"), ("form", str "F1"), ("deleted", eqNull),
        ("owner", str "u1")] = demoEnv.alterSubmissionQuery q0 demoReq ∧
      getProp q0 "owner" = demoEnv.ObjectId (userId demoReq)) ∧
    ((∀ x, demoEnv.alterSubmissionQuery x demoReq = x) →
      getProp (obj [("data.name", str "x"), ("form", str "F1"), ("deleted", eqNull),
        ("owner", str "u1")]) "owner" = demoEnv.ObjectId (userId demoReq)) :=
  C2_owner_set_before_submissionQuery demoEnv demoReq _ rfl rfl

/-- C3, as stated, fails: with a malformed header the request-derived filter
`data.name` is not in the query, while without the header it is. -/
theorem C3_counterexample :
    (handler demoEnv { demoReq with xQuery := .malformed "SyntaxError" }).found =
      some (obj [("form", str "F1"), ("deleted", eqNull), ("owner", str "u1")]) ∧
    (handler demoEnv demoReq).found =
      some (obj [("data.name", str "x"), ("form", str "F1"), ("deleted", eqNull),
        ("owner", str "u1")]) ∧
    (handler demoEnv { demoReq with xQuery := .malformed "SyntaxError" }).found ≠
      (handler demoEnv demoReq).found := by
  refine ⟨rfl, rfl, ?_⟩
  intro h
  have h2 := congrArg (fun o : Option JVal =>
    match o with
    | some q => hasOwn q "data.name"
    | none => false) h
  change false = true at h2
  cases h2

/-- C3, amended: when the header is present and is not valid JSON, the error
is logged (once by `debug`, once by `util.log`) and the handler goes on with
the empty filter: the query built is `{form: form._id, deleted: {$eq: null}}`,
and the request-derived filter is not consulted, so that the handler does the
same whatever `getFindQuery` would return. -/
theorem C3_malformed_header_empty_filter (env : Env) (req : Request) (e : String)
    (h : req.xQuery = .malformed e) :
    (∀ formId, buildQuery req.xQuery (env.getFindQuery req) formId =
      { logged := [e, e], query := .ok (obj [("form", formId), ("deleted", eqNull)]) }) ∧
    (∀ g, handler { env with getFindQuery := g } req = handler env req) ∧
    (∀ q, (handler env req).found = some q →
      ∃ fs, env.alterExport req
          (obj [("form", getProp (env.loadCurrentForm req).2 "_id"), ("deleted", eqNull)])
          (env.loadCurrentForm req).2 = .ok fs ∧
        q = env.alterSubmissionQuery (ownerFilter env req (obj fs)) req) := by
  have hbuilt : ∀ formId, buildQuery req.xQuery (env.getFindQuery req) formId =
      { logged := [e, e], query := .ok (obj [("form", formId), ("deleted", eqNull)]) } := by
    intro formId
    rw [h]
    rfl
  refine ⟨hbuilt, ?_, ?_⟩
  swap
  · intro q hq
    obtain ⟨q1, fs, hq1, ha, _, hh⟩ := handler_found_inv env req q hq
    have h1 := hookQuery_some env req q1 hq1
    rw [hbuilt] at h1
    simp only [Except.ok.injEq] at h1
    subst h1
    rw [hh] at hq
    simp only [streamStep, Option.some.injEq] at hq
    exact ⟨fs, ha, hq.symm⟩
  · intro g
    have hb : ∀ d id, buildQuery req.xQuery d id = buildQuery req.xQuery [] id := by
      intro d id
      rw [h]
      rfl
    simp only [handler, formStep, exportStep, streamStep, formatOf, ownerFilter, pipe,
      throughWrite, submissionModelOf, Env.urlEnv]
    rw [hb (g req), hb (env.getFindQuery req)]
    rfl

/-- C3, amended, at the example request with a header that is not valid JSON. -/
theorem C3_malformed_header_empty_filter_witness :
    (∀ formId, buildQuery (XQuery.malformed "SyntaxError") (demoEnv.getFindQuery
        { demoReq with xQuery := .malformed "SyntaxError" }) formId =
      { logged := ["SyntaxError", "SyntaxError"],
        query := .ok (obj [("form", formId), ("deleted", eqNull)]) }) ∧
    (∀ g, handler { demoEnv with getFindQuery := g }
        { demoReq with xQuery := .malformed "SyntaxError" } =
      handler demoEnv { demoReq with xQuery := .malformed "SyntaxError" }) ∧
    (∀ q, (handler demoEnv { demoReq with xQuery := .malformed "SyntaxError" }).found = some q →
      ∃ fs, demoEnv.alterExport { demoReq with xQuery := .malformed "SyntaxError" }
          (obj [("form", getProp (demoEnv.loadCurrentForm
            { demoReq with xQuery := .malformed "SyntaxError" }).2 "_id"), ("deleted", eqNull)])
          (demoEnv.loadCurrentForm { demoReq with xQuery := .malformed "SyntaxError" }).2 =
            .ok fs ∧
        q = demoEnv.alterSubmissionQuery
          (ownerFilter demoEnv { demoReq with xQuery := .malformed "SyntaxError" } (obj fs))
          { demoReq with xQuery := .malformed "SyntaxError" }) :=
  C3_malformed_header_empty_filter demoEnv { demoReq with xQuery := .malformed "SyntaxError" }
    "SyntaxError" rfl

/-- C4: the default of `deleted` for every caller filter.  It fails on the
code: for the filter `{"hasOwnProperty": 1}` the call
`query.hasOwnProperty('deleted')` of line 70 finds the caller's own property
instead of the method and throws a `TypeError`; no query is built, for every
request-derived filter and form id, and the handler of the example request
ends with that exception uncaught and without a call of `find`.  A header
that parses to `null` ends the same way three lines earlier. -/
theorem C4_own_hasOwnProperty_throws :
    (∀ (derived : Fields) (formId : JVal),
      (buildQuery (.parsed (obj [("hasOwnProperty", num 1)])) derived formId).query =
        .error .typeError) ∧
    (handler demoEnv
      { demoReq with xQuery := .parsed (obj [("hasOwnProperty", num 1)]) }).response =
        .uncaught .typeError ∧
    (handler demoEnv
      { demoReq with xQuery := .parsed (obj [("hasOwnProperty", num 1)]) }).found = none ∧
    (∀ (derived : Fields) (formId : JVal),
      enforce (initialQuery (.parsed null) derived).1 formId = .error .typeError) :=
  ⟨fun _ _ => rfl, rfl, rfl, fun _ _ => rfl⟩

/-- C5, as stated, fails: `form` is written before the `export` hook runs,
and a hook that points the query at the form "F2" has its way: the cursor
is opened with `form` "F2", not with the `_id` "F1" of the loaded form. -/
theorem C5_counterexample :
    (otherFormEnv.loadCurrentForm demoReq).2 = demoForm ∧
    (handler otherFormEnv demoReq).found =
      some (obj [("data.name", str "x"), ("form", str "F2"), ("deleted", eqNull),
        ("owner", str "u1")]) ∧
    getProp (obj [("data.name", str "x"), ("form", str "F2"), ("deleted", eqNull),
        ("owner", str "u1")]) "form" ≠ getProp demoForm "_id" := by
  refine ⟨rfl, rfl, ?_⟩
  intro h
  change JVal.str "F2" = JVal.str "F1" at h
  injection h with h
  revert h
  decide

/-- C5, amended: the `form` injection precedes the `export` hook and the
owner injection follows it, both before the cursor is opened.  Whenever the
cursor is opened, the query handed to the hook had `form` equal to the `_id`
of the loaded form, the hook accepted and left the own properties `fs`, and
the cursor is opened with the `submissionQuery` hook's result for the query
that has those properties with the owner filter applied: its `form` is what
the `export` hook left, and for a caller without privileges its `owner` is
the caller's id. -/
theorem C5_form_before_hook_owner_after (env : Env) (req : Request) (q : JVal)
    (h : (handler env req).found = some q) :
    ∃ q1 fs, hookQuery env req = some q1 ∧
      getProp q1 "form" = getProp (env.loadCurrentForm req).2 "_id" ∧
      env.alterExport req q1 (env.loadCurrentForm req).2 = .ok fs ∧
      q = env.alterSubmissionQuery (ownerFilter env req (withProps q1 fs)) req ∧
      getProp (ownerFilter env req (withProps q1 fs)) "form" = (assocGet "form" fs).getD undefined ∧
      (nonPrivileged req = true →
        getProp (ownerFilter env req (withProps q1 fs)) "owner" = env.ObjectId (userId req)) := by
  obtain ⟨q1, fs, hq1, ha, _, hh⟩ := handler_found_inv env req q h
  have hobj1 := hookQuery_isObject env req q1 hq1
  have hobj : isObject (withProps q1 fs) = true := by rw [isObject_withProps]; exact hobj1
  rw [hh] at h
  simp only [streamStep, Option.some.injEq] at h
  refine ⟨q1, fs, hq1, hookQuery_form env req q1 hq1, ha, h.symm, ?_, ?_⟩
  · rw [getProp_ownerFilter_form, getProp, props_withProps q1 fs hobj1]
  · intro hn
    exact getProp_ownerFilter_owner env req _ hobj hn

/-- C5, amended, at the example request with the hook that rewrites `form`. -/
theorem C5_form_before_hook_owner_after_witness :
    ∃ q1 fs, hookQuery otherFormEnv demoReq = some q1 ∧
      getProp q1 "form" = getProp (otherFormEnv.loadCurrentForm demoReq).2 "_id" ∧
      otherFormEnv.alterExport demoReq q1 (otherFormEnv.loadCurrentForm demoReq).2 = .ok fs ∧
      obj [("data.name", str "x"), ("form", str "F2"), ("deleted", eqNull), ("owner", str "u1")] =
        otherFormEnv.alterSubmissionQuery (ownerFilter otherFormEnv demoReq (withProps q1 fs))
          demoReq ∧
      getProp (ownerFilter otherFormEnv demoReq (withProps q1 fs)) "form" =
        (assocGet "form" fs).getD undefined ∧
      (nonPrivileged demoReq = true →
        getProp (ownerFilter otherFormEnv demoReq (withProps q1 fs)) "owner" =
          otherFormEnv.ObjectId (userId demoReq)) :=
  C5_form_before_hook_owner_after otherFormEnv demoReq _ rfl

/-- C6: when the initialisation fails (the format is not registered, the form
fails to load or is missing, the `export` hook hands an error to its
callback, or `exporter.init()` rejects) the handler answers with an error
status, `find` is not called and no row is queued to the exporter. -/
theorem C6_failed_init_opens_no_cursor (env : Env) (req : Request)
    (h : formatOf env req ∉ env.exporters ∨
      truthy (env.loadCurrentForm req).1 = true ∨
      truthy (env.loadCurrentForm req).2 = false ∨
      (∃ q1 m, hookQuery env req = some q1 ∧
        env.alterExport req q1 (env.loadCurrentForm req).2 = .error m) ∨
      (∃ q1 err, hookQuery env req = some q1 ∧
        env.init (formatOf env req) (env.loadCurrentForm req).2 req = .error err)) :
    (handler env req).response.isErrorStatus = true ∧
    (handler env req).found = none ∧
    (handler env req).queued = [] := by
  unfold handler
  by_cases ht : tokenOk req = true
  swap
  · simp [ht, Outcome.early, Response.isErrorStatus]
  by_cases hf : formatOf env req ∈ env.exporters
  swap
  · simp [ht, hf, Outcome.early, Response.isErrorStatus]
  simp only [ht, hf, not_true_eq_false, Bool.not_true, if_false, Bool.false_eq_true]
  unfold formStep
  by_cases he : truthy (env.loadCurrentForm req).1 = true
  · simp [he, Outcome.early, Response.isErrorStatus]
  by_cases hm : truthy (env.loadCurrentForm req).2 = true
  swap
  · simp [he, hm, Outcome.early, Response.isErrorStatus]
  have he2 : truthy (env.loadCurrentForm req).1 = false := by simpa using he
  simp only [he, hm, if_false, Bool.not_true, Bool.false_eq_true]
  have hhook : hookQuery env req =
      match (buildQuery req.xQuery (env.getFindQuery req)
        (getProp (env.loadCurrentForm req).2 "_id")).query with
      | .ok q => some q
      | .error _ => none := by
    simp [hookQuery, ht, hf, he2, hm]
  cases hb : (buildQuery req.xQuery (env.getFindQuery req)
      (getProp (env.loadCurrentForm req).2 "_id")).query with
  | error t =>
    rw [hb] at hhook
    simp [hf, he, hm, hhook] at h
  | ok q1 =>
    rw [hb] at hhook
    simp only []
    unfold exportStep
    cases ha : env.alterExport req q1 (env.loadCurrentForm req).2 with
    | error m => simp [Outcome.early, Response.isErrorStatus]
    | ok fs =>
      simp only []
      cases hi : env.init (formatOf env req) (env.loadCurrentForm req).2 req with
      | error err => simp [Outcome.early, Response.isErrorStatus]
      | ok u =>
        simp [hf, he, hm, hhook, ha, hi] at h

/-- C6 at five requests, one for each way the initialisation fails: the
format `XML`, a form that fails to load, a form that is missing, an `export`
hook that vetoes, and an exporter whose `init()` rejects. -/
theorem C6_failed_init_opens_no_cursor_witness :
    ((handler demoEnv { demoReq with format := some "XML" }).response.isErrorStatus = true ∧
      (handler demoEnv { demoReq with format := some "XML" }).found = none ∧
      (handler demoEnv { demoReq with format := some "XML" }).queued = []) ∧
    ((handler { demoEnv with loadCurrentForm := fun _ => (str "down", undefined) }
        demoReq).response.isErrorStatus = true ∧
      (handler { demoEnv with loadCurrentForm := fun _ => (str "down", undefined) }
        demoReq).found = none ∧
      (handler { demoEnv with loadCurrentForm := fun _ => (str "down", undefined) }
        demoReq).queued = []) ∧
    ((handler { demoEnv with loadCurrentForm := fun _ => (null, null) }
        demoReq).response.isErrorStatus = true ∧
      (handler { demoEnv with loadCurrentForm := fun _ => (null, null) } demoReq).found = none ∧
      (handler { demoEnv with loadCurrentForm := fun _ => (null, null) } demoReq).queued = []) ∧
    ((handler { demoEnv with alterExport := fun _ _ _ => .error "vetoed" }
        demoReq).response.isErrorStatus = true ∧
      (handler { demoEnv with alterExport := fun _ _ _ => .error "vetoed" } demoReq).found =
        none ∧
      (handler { demoEnv with alterExport := fun _ _ _ => .error "vetoed" } demoReq).queued =
        []) ∧
    ((handler { demoEnv with init := fun _ _ _ => .error (str "no columns") }
        demoReq).response.isErrorStatus = true ∧
      (handler { demoEnv with init := fun _ _ _ => .error (str "no columns") } demoReq).found =
        none ∧
      (handler { demoEnv with init := fun _ _ _ => .error (str "no columns") } demoReq).queued =
        []) :=
  ⟨C6_failed_init_opens_no_cursor demoEnv { demoReq with format := some "XML" }
      (Or.inl (by decide)),
    C6_failed_init_opens_no_cursor
      { demoEnv with loadCurrentForm := fun _ => (str "down", undefined) } demoReq
      (Or.inr (Or.inl rfl)),
    C6_failed_init_opens_no_cursor
      { demoEnv with loadCurrentForm := fun _ => (null, null) } demoReq
      (Or.inr (Or.inr (Or.inl rfl))),
    C6_failed_init_opens_no_cursor
      { demoEnv with alterExport := fun _ _ _ => .error "vetoed" } demoReq
      (Or.inr (Or.inr (Or.inr (Or.inl ⟨_, "vetoed", rfl, rfl⟩)))),
    C6_failed_init_opens_no_cursor
      { demoEnv with init := fun _ _ _ => .error (str "no columns") } demoReq
      (Or.inr (Or.inr (Or.inr (Or.inr ⟨_, str "no columns", rfl, rfl⟩))))⟩

/-- C9: the rows queued to the exporter's stream are, one for each row of
the cursor and in the order of the cursor, the row after `addUrl(row.data)`
and then `removeProtectedFields(form, 'export', row)`; when `find` is not
called nothing is queued.  No row is queued that has not been redacted, and
the redaction runs on the row that link injection has left. -/
theorem C9_queued_rows_are_redacted (env : Env) (req : Request) :
    (handler env req).queued =
      match (handler env req).found with
      | some q =>
        (submissionModelOf env req q).map (fun row =>
          obj (env.removeProtectedFields (env.loadCurrentForm req).2 "export"
            (addUrlData (env.urlEnv (env.loadCurrentForm req).2) row)))
      | none => [] := by
  cases h : (handler env req).found with
  | none => exact handler_queued_of_not_found env req h
  | some q =>
    obtain ⟨q1, fs, _, _, _, hh⟩ := handler_found_inv env req q h
    rw [hh] at h ⊢
    simp only [streamStep, Option.some.injEq] at h
    simp only [streamStep, pipe_eq, h]
    rfl

/-- C9 at the example request: the one stored submission is queued with the
`url` of its linked record and without its protected field `secret`. -/
theorem C9_queued_rows_are_redacted_witness :
    (handler demoEnv demoReq).queued =
      [obj [("_id", str "s1"),
        ("data", obj [("ref", obj [("_id", str "42"), ("form", str "5"),
          ("url", str "http://api/form/5/submission/42")])])]] :=
  (C9_queued_rows_are_redacted demoEnv demoReq).trans rfl

/-! ## The claims about link injection -/

/-- C7: in every record whose data is plain and whose nesting fits the call
stack, the run of `addUrl(row.data)` returns, and every value that it reaches,
at whatever depth through `data`, and that has a truthy `_id`, has afterwards
as its `url` the resolution against the api host of what the `fieldUrl` hook
returns for the default path `/form/<form>/submission/<_id>`, where `<form>`
and `<_id>` are the strings the template literal makes of the two
properties; the api host is `config.apiHost`, or `config.host` when that is
unset; and with a hook that returns the path, a record with `_id` "42" and
`form` "5" gets the resolution of `/form/5/submission/42`.  The state
the run returns is the one the row has in the handler. -/
theorem C7_reached_records_get_url (e : UrlEnv) (row : Row) (stack : Nat) (p : List Nat)
    (v : JVal) (hplain : plain (rowData row) = true) (hstack : depth (rowData row) < stack)
    (hr : reach (rowData row) p = some v) (hid : idBearing v = true) :
    ∃ r f i v1,
      addUrlRun e stack (rowData row) = .ok r ∧
      rowData (addUrlData e row) = r ∧
      templateString (getProp v "form") = .ok f ∧
      templateString (getProp v "_id") = .ok i ∧
      reach r p = some v1 ∧
      getProp v1 "url" = str (e.resolve e.config.apiHostOrHost
        (e.alterFieldUrl ("/form/" ++ f ++ "/submission/" ++ i) e.form v)) ∧
      (∀ h, e.config.apiHost = some h → h ≠ "" → e.config.apiHostOrHost = h) ∧
      (e.config.apiHost = none → e.config.apiHostOrHost = e.config.host) ∧
      ((∀ path form field, e.alterFieldUrl path form field = path) →
        getProp v "_id" = str "42" → getProp v "form" = str "5" →
        getProp v1 "url" = str (e.resolve e.config.apiHostOrHost "/form/5/submission/42")) ∧
      ((∀ t, templateString (str t) = .ok t) ∧
        (∀ n, templateString (num n) = .ok (toString n)) ∧
        templateString undefined = .ok "undefined" ∧
        templateString null = .ok "null" ∧
        templateString (.bool true) = .ok "true" ∧
        templateString (.bool false) = .ok "false" ∧
        (∀ fs, assocGet "toString" fs = none → templateString (obj fs) = .ok "[object Object]") ∧
        (∀ fs x, assocGet "toString" fs = some x →
          templateString (obj fs) = .error .typeError) ∧
        templateString (arr [num 1, null, str "x"] []) = .ok "1,,x") := by
  have hv : plain v = true := plain_of_reach p _ _ hplain hr
  have hf := templateString_of_plain _ (plain_getProp v "form" hv)
  have hi := templateString_of_plain _ (plain_getProp v "_id" hv)
  have hurl : getProp (addUrlField e v) "url" = str (e.resolve e.config.apiHostOrHost
      (e.alterFieldUrl
        ("/form/" ++ toStr (getProp v "form") ++ "/submission/" ++ toStr (getProp v "_id"))
        e.form v)) := getProp_addUrlField_url e v hid
  refine ⟨addUrl e (rowData row), toStr (getProp v "form"), toStr (getProp v "_id"),
    addUrlField e v, addUrlRun_of_plain e _ _ hplain hstack, rowData_addUrlData e row, hf, hi,
    reach_addUrl e p _ _ hr, hurl, ?_, ?_, ?_, ?_⟩
  · intro h hs hne
    simp [Config.apiHostOrHost, hs, hne]
  · intro hn
    simp [Config.apiHostOrHost, hn]
  · intro hhook h42 h5
    rw [hurl, hhook, h42, h5]
    rfl
  · refine ⟨fun _ => rfl, fun _ => rfl, rfl, rfl, rfl, rfl, ?_, ?_, rfl⟩
    · intro fs h
      simp [templateString, h]
    · intro fs x h
      simp [templateString, h]

/-- C7 at the example record: the linked record "42" of form "5", nested
in the `data` of another linked record, is reached at depth two, on a stack
with room for five nested calls. -/
theorem C7_reached_records_get_url_witness :
    ∃ r f i v1,
      addUrlRun demoUrlEnv 5 (rowData demoRow) = .ok r ∧
      rowData (addUrlData demoUrlEnv demoRow) = r ∧
      templateString (getProp (obj [("_id", str "42"), ("form", str "5")]) "form") = .ok f ∧
      templateString (getProp (obj [("_id", str "42"), ("form", str "5")]) "_id") = .ok i ∧
      reach r [1, 0] = some v1 ∧
      getProp v1 "url" = str (demoUrlEnv.resolve demoUrlEnv.config.apiHostOrHost
        (demoUrlEnv.alterFieldUrl ("/form/" ++ f ++ "/submission/" ++ i) demoUrlEnv.form
          (obj [("_id", str "42"), ("form", str "5")]))) ∧
      (∀ h, demoUrlEnv.config.apiHost = some h → h ≠ "" →
        demoUrlEnv.config.apiHostOrHost = h) ∧
      (demoUrlEnv.config.apiHost = none →
        demoUrlEnv.config.apiHostOrHost = demoUrlEnv.config.host) ∧
      ((∀ path form field, demoUrlEnv.alterFieldUrl path form field = path) →
        getProp (obj [("_id", str "42"), ("form", str "5")]) "_id" = str "42" →
        getProp (obj [("_id", str "42"), ("form", str "5")]) "form" = str "5" →
        getProp v1 "url" =
          str (demoUrlEnv.resolve demoUrlEnv.config.apiHostOrHost "/form/5/submission/42")) ∧
      ((∀ t, templateString (str t) = .ok t) ∧
        (∀ n, templateString (num n) = .ok (toString n)) ∧
        templateString undefined = .ok "undefined" ∧
        templateString null = .ok "null" ∧
        templateString (.bool true) = .ok "true" ∧
        templateString (.bool false) = .ok "false" ∧
        (∀ fs, assocGet "toString" fs = none → templateString (obj fs) = .ok "[object Object]") ∧
        (∀ fs x, assocGet "toString" fs = some x →
          templateString (obj fs) = .error .typeError) ∧
        templateString (arr [num 1, null, str "x"] []) = .ok "1,,x") :=
  C7_reached_records_get_url demoUrlEnv demoRow 5 [1, 0]
    (obj [("_id", str "42"), ("form", str "5")]) rfl (by decide) rfl rfl

/-- C8, as stated, fails: no depth is refused by `addUrl` itself.  Whatever
cap is proposed, on a call stack with room for two more nested calls than the
cap, the run on the record with one more linked record nested through `data`
than the cap returns, and the innermost linked record, which had no `url`,
has one. -/
theorem C8_counterexample :
    ¬ ∃ cap : Nat, ∀ (e : UrlEnv) (stack : Nat) (d : JVal) (p : List Nat) (v : JVal),
      cap < p.length → reach d p = some v → idBearing v = true → hasOwn v "url" = false →
      ¬ ∃ r v1, addUrlRun e stack d = .ok r ∧ reach r p = some v1 ∧ hasOwn v1 "url" = true := by
  rintro ⟨cap, hcap⟩
  refine hcap demoUrlEnv (cap + 2) (nest (cap + 1)) (List.replicate (cap + 1) 0)
    (linkOf (nest 0)) (by simp) (reach_nest cap) rfl rfl
    ⟨_, _, addUrlRun_nest demoUrlEnv (cap + 1) (cap + 2) (by omega),
      reach_addUrl _ _ _ _ (reach_nest cap), ?_⟩
  exact hasOwn_addUrlField_url _ _ rfl

/-- C8, amended: link injection has no depth check and no error of its own;
the depth it reaches is bounded by the call stack of the runtime only.  Every
plain record is linked by a run on a stack with room for more nested calls
than the record is deep.  For every `n`, the run on the record with `n + 1`
linked records nested through `data` returns as soon as the stack has room
for `n + 2` nested calls, with the `url` of line 92 on the innermost linked
record, and on a smaller stack it ends in the `RangeError` of the runtime. -/
theorem C8_depth_bounded_by_stack_only (e : UrlEnv) (n stack : Nat) :
    (∀ d : JVal, plain d = true → depth d < stack → addUrlRun e stack d = .ok (addUrl e d)) ∧
    (n + 1 < stack →
      ∃ r v1, addUrlRun e stack (nest (n + 1)) = .ok r ∧
        reach r (List.replicate (n + 1) 0) = some v1 ∧
        getProp v1 "url" = str (e.resolve e.config.apiHostOrHost
          (e.alterFieldUrl "/form/f/submission/1" e.form (linkOf (nest 0))))) ∧
    (stack ≤ n + 1 → addUrlRun e stack (nest (n + 1)) = .error .rangeError) ∧
    reach (nest (n + 1)) (List.replicate (n + 1) 0) = some (linkOf (nest 0)) ∧
    hasOwn (linkOf (nest 0)) "url" = false := by
  refine ⟨fun d hp hd => addUrlRun_of_plain e d stack hp hd, ?_,
    fun hs => addUrlRun_nest_overflow e (n + 1) stack hs, reach_nest n, rfl⟩
  intro hs
  exact ⟨_, _, addUrlRun_nest e (n + 1) stack hs, reach_addUrl _ _ _ _ (reach_nest n),
    getProp_addUrlField_url e _ rfl⟩

/-- C8, amended, at depth 1000: a stack with room for 1002 nested calls links
the innermost record, a stack with room for 1001 overflows. -/
theorem C8_depth_bounded_by_stack_only_witness :
    (∃ r v1, addUrlRun demoUrlEnv 1002 (nest 1001) = .ok r ∧
      reach r (List.replicate 1001 0) = some v1 ∧
      getProp v1 "url" = str (demoUrlEnv.resolve demoUrlEnv.config.apiHostOrHost
        (demoUrlEnv.alterFieldUrl "/form/f/submission/1" demoUrlEnv.form (linkOf (nest 0))))) ∧
    addUrlRun demoUrlEnv 1001 (nest 1001) = .error .rangeError :=
  ⟨(C8_depth_bounded_by_stack_only demoUrlEnv 1000 1002).2.1 (by decide),
    (C8_depth_bounded_by_stack_only demoUrlEnv 1000 1001).2.2.1 (by decide)⟩

/-- C10: `addUrl` changes a record only by the `url` of the linked values it
reaches.  On plain data that fits the call stack the run returns the state
`addUrl e d`, which is the state the row has in the handler, and that state
is the data with the iteratee applied to each item of an array, to each own
value of an object, or to the values at the indices of an array-like object,
and nothing else changed; a primitive is left as it is.  The iteratee leaves
a value without a truthy `_id` as it is, with everything beneath it, and
gives a value with a truthy `_id` its `url` and runs `addUrl` on its `data`,
every other property staying as it was, in place.  Up to `url` properties
the data is what it was, and an array of linked records or an object without
an id that holds one comes out unchanged. -/
theorem C10_addUrl_only_sets_url (e : UrlEnv) :
    (∀ (d : JVal) (stack : Nat), plain d = true → depth d < stack →
      addUrlRun e stack d = .ok (addUrl e d)) ∧
    (∀ (row : Row) (stack : Nat), plain (rowData row) = true → depth (rowData row) < stack →
      addUrlRun e stack (rowData row) = .ok (rowData (addUrlData e row))) ∧
    (∀ (items : List JVal) (ps : Fields), plain (arr items ps) = true →
      addUrl e (arr items ps) = arr (items.map (addUrlField e)) ps) ∧
    (∀ fs : Fields, plain (obj fs) = true → arrayLikeLength fs = none →
      addUrl e (obj fs) = obj (fs.map (fun kv => (kv.1, addUrlField e kv.2)))) ∧
    (∀ (fs : Fields) (n : Nat), plain (obj fs) = true → arrayLikeLength fs = some n →
      addUrl e (obj fs) =
        obj (fs.map (fun kv => (kv.1, if isIndexBelow n kv.1 then addUrlField e kv.2 else kv.2)))) ∧
    (∀ d : JVal, isObject d = false → addUrl e d = d) ∧
    (∀ w : JVal, idBearing w = false → addUrlField e w = w) ∧
    (∀ w : JVal, plain w = true → idBearing w = true →
      ∃ u, addUrlField e w = withProps w (assocSet "url" u (addUrlData e (props w)))) ∧
    (∀ fs : Fields, (∀ kv ∈ fs, kv.1 ≠ "data") → addUrlData e fs = fs) ∧
    (∀ (pre : Fields) (x : JVal) (post : Fields), plain x = true →
      (∀ kv ∈ pre, kv.1 ≠ "data") →
      addUrlData e (pre ++ ("data", x) :: post) = pre ++ ("data", addUrl e x) :: post) ∧
    (∀ d : JVal, plain d = true → eraseUrl (addUrl e d) = eraseUrl d) ∧
    (∀ (d : JVal) (k : String), plain d = true → hasOwn (addUrl e d) k = hasOwn d k) ∧
    addUrl e (obj [("list", arr [linkOf null, linkOf null] []),
        ("box", obj [("inner", linkOf null)])]) =
      obj [("list", arr [linkOf null, linkOf null] []), ("box", obj [("inner", linkOf null)])] := by
  refine ⟨fun d stack hp hd => addUrlRun_of_plain e d stack hp hd, ?_, ?_, ?_, ?_, ?_,
    addUrlField_of_not_idBearing e, ?_, addUrlData_of_no_data e, ?_, ?_, ?_, rfl⟩
  · intro row stack hp hd
    rw [rowData_addUrlData]
    exact addUrlRun_of_plain e _ stack hp hd
  · intro items ps _
    simp only [addUrl, addUrlItems_eq_map]
  · intro fs _ h
    simp only [addUrl, h, addUrlOwn_eq_map]
  · intro fs n _ h
    simp only [addUrl, h, addUrlIndexed_eq_map]
  · intro d h
    cases d <;> first | rfl | simp [isObject] at h
  · intro w _ hid
    exact ⟨_, addUrlField_of_idBearing e w hid⟩
  · intro pre x post _ h
    exact addUrlData_at_data e pre x post h
  · intro d _
    exact eraseUrl_addUrl e d
  · intro d k _
    exact hasOwn_addUrl e d k

/-- C10 at the example record: the run returns the state the row has in the
handler, whose data is the same up to `url` properties. -/
theorem C10_addUrl_only_sets_url_witness :
    addUrlRun demoUrlEnv 5 (rowData demoRow) = .ok (rowData (addUrlData demoUrlEnv demoRow)) ∧
    eraseUrl (addUrl demoUrlEnv (rowData demoRow)) = eraseUrl (rowData demoRow) :=
  ⟨(C10_addUrl_only_sets_url demoUrlEnv).2.1 demoRow 5 rfl (by decide),
    (C10_addUrl_only_sets_url demoUrlEnv).2.2.2.2.2.2.2.2.2.2.1 (rowData demoRow) rfl⟩

end Formio
